import Mathlib

/-!
# spid transaction loop (`src/soc/spid.c`)

A shallow embedding of the transaction loop of the SPI bridge daemon and the
properties of its header / data exchange, retry counter and per-channel
connection bookkeeping.

Conventions of the embedding

* `uint8_t` values are naturals, reduced `% 256` where the C code stores a
  value that may not fit; `~(1 << i)` stored into a `uint8_t` is the mask
  `0xFF ^^^ (1 <<< i)`, `~POLLIN` stored into the 16-bit `events` field is
  `0xFFFF ^^^ POLLIN`.
* a C condition `x & m` is the proposition `x &&& m ≠ 0`.
* arrays are functions on indices; `fds` is the single array of the source,
  addressed through `GPIO_POLL`, `CONN_POLL`, `SOCK_POLL`.
* every system call takes its result from the `Input` of the cycle; the calls
  that matter to the properties are recorded in the ghost field `log`.
* `fatal(...)` is `Except.error`; a cycle that ends in `continue` or reaches
  the end of the loop body is `Except.ok` of the next state.
-/

namespace Spid

/-! ## Constants -/

def N_CHANNEL : Nat := 3
def BUFSIZE : Nat := 255
def N_POLLFDS : Nat := N_CHANNEL * 2 + 1

/-- Event bits of `poll.h`, with their Linux values (`asm-generic/poll.h`). -/
def POLLIN : Nat := 0x001
def POLLPRI : Nat := 0x002
def POLLOUT : Nat := 0x004
def POLLERR : Nat := 0x008
def POLLHUP : Nat := 0x010
def POLLRDHUP : Nat := 0x2000

/-! ## Data model -/

/-- The `ChannelData` struct. `out_length` only ever holds `0` or the positive
return value of a `read`, so it is a natural number. -/
structure ChannelData where
  in_length : Nat
  out_buf : List Nat
  out_length : Nat
  in_buf : List Nat

/-- The fields of `struct pollfd`. -/
structure PollFd where
  fd : Int
  events : Nat
  revents : Nat

/-- The fields of `struct spi_ioc_transfer` the daemon sets; a buffer pointer is
`none` for NULL and `some chan` for the buffer of channel `chan`. -/
structure Desc where
  tx_buf : Option Nat
  rx_buf : Option Nat
  len : Nat
deriving DecidableEq, Repr

/-- Result of `read(fd, buf, BUFSIZE)` on a client socket: an error (`-1`) or
the bytes the socket has to offer (none of them: end of file). -/
inductive ReadResult where
  | error
  | data (bytes : List Nat)
deriving DecidableEq, Repr

/-- Bytes stored into the buffer by a `read` of at most `BUFSIZE` bytes. -/
def ReadResult.chunk : ReadResult → List Nat
  | .error => []
  | .data bytes => bytes.take BUFSIZE

/-- Return value of the `read`. -/
def ReadResult.length : ReadResult → Int
  | .error => -1
  | .data bytes => ((bytes.take BUFSIZE).length : Int)

/-- System calls recorded in the ghost log. -/
inductive Ev where
  /-- `accept` on channel `chan` stored `new` over the handle `old`. -/
  | accept (chan : Nat) (old new : Int)
  /-- `read` on channel `chan` returned `ret` and stored `chunk`. -/
  | read (chan : Nat) (fd : Int) (ret : Int) (chunk : List Nat)
  /-- `close_connection(chan)` closed the handle `fd`. -/
  | close (chan : Nat) (fd : Int)
  /-- the header ioctl sent `tx` and received `rx`. -/
  | header (tx rx : List Nat)
  /-- the data ioctl was issued with the descriptor list. -/
  | xfer (descs : List Desc)
  /-- payload carried by an outbound descriptor of the data ioctl. -/
  | tx (chan : Nat) (payload : List Nat)
  /-- `write` of `data` to the client handle `fd` of channel `chan`. -/
  | write (chan : Nat) (fd : Int) (data : List Nat)
deriving DecidableEq, Repr

/-- Reasons for `fatal(...)` inside the loop. -/
inductive Fatal where
  | poll
  | gpio_read
  | gpio_write
  | accept
  | spi_header
  | retries
  | spi_data
deriving DecidableEq, Repr

/-- The globals and the locals of `main` that live across cycles. -/
structure State where
  channels : Nat → ChannelData
  channel_status : Nat → Nat
  fds : Nat → PollFd
  writable : Nat
  channels_open : Nat
  retries : Nat
  log : List Ev

/-- What the environment returns to the system calls of one cycle. -/
structure Input where
  poll_ret : Int
  revents : Nat → Nat
  irq_read_ret : Int
  sync_low_ret : Int
  accept_ret : Nat → Int
  read_ret : Nat → ReadResult
  hdr_status : Int
  hdr_rx : Nat → Nat
  sync_high_ret : Int
  data_status : Int
  miso : Nat → List Nat
  write_ret : Nat → Int

/-! ## Helpers -/

/-- Array store `f[k] = v`. -/
def upd {α : Type} (f : Nat → α) (k : Nat) (v : α) : Nat → α :=
  fun j => if j = k then v else f j

/-- Store `bytes` at the start of `buf`, keeping the rest of `buf`. -/
def overwrite (buf bytes : List Nat) : List Nat :=
  bytes ++ buf.drop bytes.length

def GPIO_POLL : Nat := 0
def CONN_POLL (n : Nat) : Nat := 1 + n
def SOCK_POLL (n : Nat) : Nat := 1 + N_CHANNEL + n

def State.emit (s : State) (e : Ev) : State :=
  { s with log := s.log ++ [e] }

def State.setFd (s : State) (k : Nat) (v : Int) : State :=
  { s with fds := upd s.fds k { s.fds k with fd := v } }

def State.setEvents (s : State) (k : Nat) (v : Nat) : State :=
  { s with fds := upd s.fds k { s.fds k with events := v } }

def State.setOutLength (s : State) (i : Nat) (v : Nat) : State :=
  { s with channels := upd s.channels i { s.channels i with out_length := v } }

def State.setOutBuf (s : State) (i : Nat) (v : List Nat) : State :=
  { s with channels := upd s.channels i { s.channels i with out_buf := v } }

def State.setInBuf (s : State) (i : Nat) (v : List Nat) : State :=
  { s with channels := upd s.channels i { s.channels i with in_buf := v } }

def State.setWritable (s : State) (v : Nat) : State := { s with writable := v }

def State.setOpen (s : State) (v : Nat) : State := { s with channels_open := v }

def State.setStatus (s : State) (i : Nat) (v : Nat) : State :=
  { s with channel_status := upd s.channel_status i v }

def State.setRetries (s : State) (v : Nat) : State := { s with retries := v }

/-! ## The program -/

/-- State at the first `poll`: everything zeroed by `memset`, the IRQ pin and
the three listening sockets registered, no connection. -/
def init (irq_fd : Int) (sock_fd : Nat → Int) : State :=
  { channels := fun _ =>
      { in_length := 0, out_buf := List.replicate BUFSIZE 0, out_length := 0,
        in_buf := List.replicate BUFSIZE 0 }
    channel_status := fun _ => 0
    fds := fun k =>
      if k = GPIO_POLL then { fd := irq_fd, events := POLLPRI, revents := 0 }
      else if k < 1 + N_CHANNEL then { fd := -1, events := 0, revents := 0 }
      else if k < N_POLLFDS then
        { fd := sock_fd (k - (1 + N_CHANNEL)), events := POLLIN, revents := 0 }
      else { fd := 0, events := 0, revents := 0 }
    writable := 0
    channels_open := 0
    retries := 0
    log := [] }

/-- The function `close_connection`. -/
def close_connection (channel : Nat) (s : State) : State :=
  let s := s.emit (Ev.close channel (s.fds (CONN_POLL channel)).fd)
  let s := s.setFd (CONN_POLL channel) (-1)
  let s := s.setOutLength channel 0
  s.setEvents (SOCK_POLL channel) POLLIN

/-- The loop clearing `revents` followed by `poll`, which fills in `revents`
of the `N_POLLFDS` entries. -/
def pollFds (inp : Input) (s : State) : State :=
  { s with fds := fun k =>
      if k < N_POLLFDS then { s.fds k with revents := inp.revents k } else s.fds k }

/-- Body of the loop "Check for new connections on unconnected sockets". -/
def acceptBody (inp : Input) (i : Nat) (s : State) : Except Fatal State :=
  if (s.fds (SOCK_POLL i)).revents &&& POLLIN ≠ 0 then
    let fd := inp.accept_ret i
    if fd = -1 then .error Fatal.accept
    else
      let s := s.emit (Ev.accept i (s.fds (CONN_POLL i)).fd fd)
      let s := s.setFd (CONN_POLL i) fd
      let s := s.setEvents (CONN_POLL i) (POLLIN ||| POLLOUT)
      let s := s.setEvents (SOCK_POLL i) 0
      .ok (s.setOpen ((s.channels_open ||| (1 <<< i)) % 256))
  else .ok s

def acceptLoop (inp : Input) (s : State) : Except Fatal State :=
  (List.range N_CHANNEL).foldlM (fun s i => acceptBody inp i s) s

/-- The `read` part of the second loop body; returns the state and `to_close`. -/
def readPart (inp : Input) (i : Nat) (s : State) : State × Bool :=
  if (s.fds (CONN_POLL i)).revents &&& POLLIN ≠ 0 then
    let r := inp.read_ret i
    let length := r.length
    let s := s.emit (Ev.read i (s.fds (CONN_POLL i)).fd length r.chunk)
    let s := s.setOutBuf i (overwrite (s.channels i).out_buf r.chunk)
    let s := s.setEvents (CONN_POLL i)
      ((s.fds (CONN_POLL i)).events &&& (0xFFFF ^^^ POLLIN))
    if length > 0 then (s.setOutLength i length.toNat, false)
    else (s, true)
  else (s, false)

/-- Body of the loop "Check which connected sockets are readable / writable or
closed". -/
def sockBody (inp : Input) (i : Nat) (s : State) : State :=
  let p := readPart inp i s
  let s := p.1
  let to_close := p.2
  if to_close = true ∨ (s.fds (CONN_POLL i)).revents &&& POLLHUP ≠ 0
      ∨ (s.fds (CONN_POLL i)).revents &&& POLLERR ≠ 0
      ∨ (s.fds (CONN_POLL i)).revents &&& POLLRDHUP ≠ 0 then
    let s := close_connection i s
    let s := s.setWritable (s.writable &&& (0xFF ^^^ (1 <<< i)))
    s.setOpen (s.channels_open &&& (0xFF ^^^ (1 <<< i)))
  else if (s.fds (CONN_POLL i)).revents &&& POLLOUT ≠ 0 then
    let s := s.setEvents (CONN_POLL i)
      ((s.fds (CONN_POLL i)).events &&& (0xFFFF ^^^ POLLOUT))
    s.setWritable ((s.writable ||| (1 <<< i)) % 256)
  else s

def sockLoop (inp : Input) (s : State) : State :=
  (List.range N_CHANNEL).foldl (fun s i => sockBody inp i s) s

/-- The header `tx_buf`. -/
def tx_buf (s : State) : List Nat :=
  [0x53, (s.writable ||| (s.channels_open <<< 4)) % 256] ++
    (List.range N_CHANNEL).map (fun i => (s.channels i).out_length % 256)

/-- The header `rx_buf`, an array of `uint8_t`. -/
def rx_buf (inp : Input) (k : Nat) : Nat := inp.hdr_rx k % 256

/-- Body of the loop applying the peer's enable bits. -/
def statusBody (rx : Nat → Nat) (i : Nat) (s : State) : State :=
  let new_status := (rx 1 &&& (0x10 <<< i)) % 256
  let old_status := s.channel_status i
  if new_status = old_status then s
  else
    let s :=
      if new_status = 1 then s.setEvents (SOCK_POLL i) POLLIN
      else
        let s := close_connection i s
        let s := s.setWritable (s.writable &&& (0xFF ^^^ (1 <<< i)))
        let s := s.setOpen (s.channels_open &&& (0xFF ^^^ (1 <<< i)))
        s.setEvents (SOCK_POLL i) 0
    s.setStatus i new_status

def statusLoop (rx : Nat → Nat) (s : State) : State :=
  (List.range N_CHANNEL).foldl (fun s i => statusBody rx i s) s

/-- Body of the loop "Prepare the data transfer"; `transfer[desc]` is the end
of the list built so far. -/
def descBody (rx : Nat → Nat) (chan : Nat) (st : State × List Desc) : State × List Desc :=
  let s := st.1
  let transfer := st.2
  let size := (s.channels chan).out_length
  let st : State × List Desc :=
    if rx 1 &&& (1 <<< chan) ≠ 0 ∧ size > 0 then
      let s := s.setEvents (CONN_POLL chan) ((s.fds (CONN_POLL chan)).events ||| POLLIN)
      let s := s.setOutLength chan 0
      (s, transfer ++ [{ tx_buf := some chan, rx_buf := none, len := size }])
    else (s, transfer)
  let size := rx (2 + chan)
  if st.1.writable &&& (1 <<< chan) ≠ 0 ∧ size > 0 then
    (st.1, st.2 ++ [{ tx_buf := none, rx_buf := some chan, len := size }])
  else st

def descLoop (rx : Nat → Nat) (s : State) : State × List Desc :=
  (List.range N_CHANNEL).foldl (fun st chan => descBody rx chan st) (s, [])

/-- Effect of the data ioctl for one descriptor: an outbound descriptor carries
the first `len` bytes of the channel's `out_buf`, an inbound one stores the
bytes clocked in into the channel's `in_buf`. -/
def xferDesc (inp : Input) (s : State) (d : Desc) : State :=
  let s := match d.tx_buf with
    | some chan => s.emit (Ev.tx chan ((s.channels chan).out_buf.take d.len))
    | none => s
  match d.rx_buf with
  | some chan => s.setInBuf chan (overwrite (s.channels chan).in_buf ((inp.miso chan).take d.len))
  | none => s

/-- Body of the loop "Write received data to the appropriate socket". -/
def deliverBody (rx : Nat → Nat) (chan : Nat) (s : State) : State :=
  let size := rx (2 + chan)
  if s.writable &&& (1 <<< chan) ≠ 0 ∧ size > 0 then
    let s := s.emit (Ev.write chan (s.fds (CONN_POLL chan)).fd ((s.channels chan).in_buf.take size))
    let s := s.setEvents (CONN_POLL chan) ((s.fds (CONN_POLL chan)).events ||| POLLOUT)
    s.setWritable (s.writable &&& (0xFF ^^^ (1 <<< chan)))
  else s

def deliverLoop (rx : Nat → Nat) (s : State) : State :=
  (List.range N_CHANNEL).foldl (fun s chan => deliverBody rx chan s) s

/-- From "Prepare the data transfer" to the end of the loop body. -/
def dataPhase (inp : Input) (rx : Nat → Nat) (s : State) : Except Fatal State :=
  let st := descLoop rx s
  if st.2.length ≠ 0 then
    if inp.data_status < 0 then .error Fatal.spi_data
    else
      let s := st.1.emit (Ev.xfer st.2)
      let s := st.2.foldl (xferDesc inp) s
      .ok (deliverLoop rx s)
  else .ok st.1

/-- From `poll` to the point where the header is built: the state in which
`tx_buf` is filled. -/
def socketPhase (s : State) (inp : Input) : Except Fatal State :=
  if inp.poll_ret < 0 then .error Fatal.poll
  else
    let s := pollFds inp s
    if (s.fds GPIO_POLL).revents &&& POLLPRI ≠ 0 ∧ inp.irq_read_ret < 0 then
      .error Fatal.gpio_read
    else if inp.sync_low_ret < 0 then .error Fatal.gpio_write
    else
      match acceptLoop inp s with
      | .error e => .error e
      | .ok s => .ok (sockLoop inp s)

/-- The header exchange and what follows it, from the state `s` in which the
header is built. -/
def headerPhase (inp : Input) (s : State) : Except Fatal State :=
  if inp.hdr_status < 0 then .error Fatal.spi_header
  else
    let rx := rx_buf inp
    let s := s.emit (Ev.header (tx_buf s) ((List.range (2 + N_CHANNEL)).map rx))
    if inp.sync_high_ret < 0 then .error Fatal.gpio_write
    else if rx 0 ≠ 0xCA then
      let s := s.setRetries (s.retries + 1)
      if s.retries > 15 then .error Fatal.retries
      else .ok s
    else
      let s := statusLoop rx s
      let s := s.setRetries 0
      dataPhase inp rx s

/-- One pass of `while (1)`. -/
def cycle (s : State) (inp : Input) : Except Fatal State :=
  match socketPhase s inp with
  | .error e => .error e
  | .ok s => headerPhase inp s

/-- The loop over a sequence of cycle inputs; stops at the first `fatal`. -/
def run (s : State) : List Input → Except Fatal State
  | [] => .ok s
  | inp :: rest =>
    match cycle s inp with
    | .error e => .error e
    | .ok s => run s rest

/-! ## Per-channel view

Each loop body of the program touches one channel only: the channel's two
`pollfd` entries, its buffers and length, its enable status and its bit in
`writable` and `channels_open`. `view j s` collects what belongs to channel
`j`; the functions below are the loop bodies read on a view. -/

/-- The log entries of one channel that concern its outbound path. -/
inductive CEv where
  | read (chunk : List Nat)
  | tx (payload : List Nat)
  | close
deriving DecidableEq, Repr

/-- Projection of a log entry to channel `c`: a `read` that returned a
positive length, an outbound payload, a `close_connection`. -/
def chanEv (c : Nat) : Ev → Option CEv
  | .read chan _ ret chunk => if chan = c ∧ ret > 0 then some (CEv.read chunk) else none
  | .tx chan payload => if chan = c then some (CEv.tx payload) else none
  | .close chan _ => if chan = c then some CEv.close else none
  | _ => none

def chanEvs (c : Nat) (log : List Ev) : List CEv := log.filterMap (chanEv c)

structure View where
  conn : PollFd
  sock : PollFd
  out_buf : List Nat
  out_length : Nat
  status : Nat
  wbit : Bool
  obit : Bool
  trace : List CEv

def view (j : Nat) (s : State) : View :=
  { conn := s.fds (CONN_POLL j)
    sock := s.fds (SOCK_POLL j)
    out_buf := (s.channels j).out_buf
    out_length := (s.channels j).out_length
    status := s.channel_status j
    wbit := s.writable.testBit j
    obit := s.channels_open.testBit j
    trace := chanEvs j s.log }

/-- The function `close_connection` on a view. -/
def closeV (v : View) : View :=
  { v with
    conn := { v.conn with fd := -1 }
    out_length := 0
    sock := { v.sock with events := POLLIN }
    trace := v.trace ++ [CEv.close] }

def pollV (inp : Input) (j : Nat) (v : View) : View :=
  { v with
    conn := { v.conn with revents := inp.revents (CONN_POLL j) }
    sock := { v.sock with revents := inp.revents (SOCK_POLL j) } }

def acceptV (inp : Input) (j : Nat) (v : View) : Except Fatal View :=
  if v.sock.revents &&& POLLIN ≠ 0 then
    if inp.accept_ret j = -1 then .error Fatal.accept
    else
      .ok { v with
        conn := { v.conn with fd := inp.accept_ret j, events := POLLIN ||| POLLOUT }
        sock := { v.sock with events := 0 }
        obit := true }
  else .ok v

def readV (inp : Input) (j : Nat) (v : View) : View × Bool :=
  if v.conn.revents &&& POLLIN ≠ 0 then
    let r := inp.read_ret j
    let v := { v with
      out_buf := overwrite v.out_buf r.chunk
      conn := { v.conn with events := v.conn.events &&& (0xFFFF ^^^ POLLIN) } }
    if r.length > 0 then
      ({ v with out_length := r.length.toNat, trace := v.trace ++ [CEv.read r.chunk] }, false)
    else (v, true)
  else (v, false)

def sockV (inp : Input) (j : Nat) (v : View) : View :=
  let p := readV inp j v
  let v := p.1
  if p.2 = true ∨ v.conn.revents &&& POLLHUP ≠ 0 ∨ v.conn.revents &&& POLLERR ≠ 0
      ∨ v.conn.revents &&& POLLRDHUP ≠ 0 then
    { closeV v with wbit := false, obit := false }
  else if v.conn.revents &&& POLLOUT ≠ 0 then
    { v with
      conn := { v.conn with events := v.conn.events &&& (0xFFFF ^^^ POLLOUT) }
      wbit := true }
  else v

def statusV (rx : Nat → Nat) (j : Nat) (v : View) : View :=
  let new_status := (rx 1 &&& (0x10 <<< j)) % 256
  if new_status = v.status then v
  else
    let v :=
      if new_status = 1 then { v with sock := { v.sock with events := POLLIN } }
      else
        { closeV v with
          wbit := false
          obit := false
          sock := { v.sock with events := 0 } }
    { v with status := new_status }

/-- Outbound descriptor of channel `j`, if the loop body appends one. -/
def txDesc (rx : Nat → Nat) (j : Nat) (v : View) : List Desc :=
  if rx 1 &&& (1 <<< j) ≠ 0 ∧ v.out_length > 0 then
    [{ tx_buf := some j, rx_buf := none, len := v.out_length }]
  else []

/-- Inbound descriptor of channel `j`, if the loop body appends one. -/
def rxDesc (rx : Nat → Nat) (j : Nat) (v : View) : List Desc :=
  if v.wbit = true ∧ rx (2 + j) > 0 then
    [{ tx_buf := none, rx_buf := some j, len := rx (2 + j) }]
  else []

def descV (rx : Nat → Nat) (j : Nat) (v : View) : View :=
  if rx 1 &&& (1 <<< j) ≠ 0 ∧ v.out_length > 0 then
    { v with
      conn := { v.conn with events := v.conn.events ||| POLLIN }
      out_length := 0 }
  else v

/-- Payloads the data ioctl carries for channel `j`. -/
def txPayloads (j : Nat) (out_buf : List Nat) (descs : List Desc) : List CEv :=
  descs.filterMap (fun d => if d.tx_buf = some j then some (CEv.tx (out_buf.take d.len)) else none)

def xferV (j : Nat) (descs : List Desc) (v : View) : View :=
  { v with trace := v.trace ++ txPayloads j v.out_buf descs }

def deliverV (rx : Nat → Nat) (j : Nat) (v : View) : View :=
  if v.wbit = true ∧ rx (2 + j) > 0 then
    { v with
      conn := { v.conn with events := v.conn.events ||| POLLOUT }
      wbit := false }
  else v

/-! ## Specification-side definitions -/

/-- The poll model: `poll` reports nothing for an entry whose `fd` is negative
and reports `POLLIN` only where `POLLIN` was requested in `events`. -/
def PollModel (s : State) (inp : Input) : Prop :=
  ∀ k, k < N_POLLFDS →
    ((s.fds k).fd < 0 → inp.revents k = 0) ∧
    (inp.revents k &&& POLLIN ≠ 0 → (s.fds k).events &&& POLLIN ≠ 0)

instance (s : State) (inp : Input) : Decidable (PollModel s inp) := by
  unfold PollModel; infer_instance

/-- States at a cycle boundary (where `poll` is called) that the loop reaches
from startup under the poll model. -/
inductive Reachable : State → Prop where
  | start (irq_fd : Int) (sock_fd : Nat → Int) : Reachable (init irq_fd sock_fd)
  | next {s s1 : State} (inp : Input) :
      Reachable s → PollModel s inp → cycle s inp = .ok s1 → Reachable s1

/-- The state after a cycle, for a cycle that is not fatal. -/
def after (s : State) (inp : Input) : State :=
  match cycle s inp with
  | .ok s1 => s1
  | .error _ => s

/-- Reference construction of the data descriptor list from the header reply
`rx` and the state left by the enable-delta step: per channel, in order, a
tx-only descriptor of length `out_length` if the peer's ready bit is set and
`out_length > 0`, then an rx-only descriptor of length `rx[2+chan]` if the
`writable` bit is set and `rx[2+chan] > 0`. -/
def refDescs (rx : Nat → Nat) (s : State) : List Desc :=
  (List.range N_CHANNEL).flatMap fun chan =>
    (if (rx 1).testBit chan = true ∧ 0 < (s.channels chan).out_length then
      [{ tx_buf := some chan, rx_buf := none, len := (s.channels chan).out_length }]
     else []) ++
    (if s.writable.testBit chan = true ∧ 0 < rx (2 + chan) then
      [{ tx_buf := none, rx_buf := some chan, len := rx (2 + chan) }]
     else [])

/-- What a channel holds for the peer: nothing, or one chunk read from the
client and not yet transmitted. -/
inductive Pending where
  | empty
  | chunk (bytes : List Nat)
deriving DecidableEq, Repr

/-- Reference behaviour of a channel's outbound path: a chunk is read only
into an empty slot, an outbound descriptor carries exactly the pending chunk
and empties the slot, closing the connection drops what is pending. `none`
is a violation. -/
def chanStep (p : Pending) : CEv → Option Pending
  | .read chunk => if p = Pending.empty then some (Pending.chunk chunk) else none
  | .tx payload => if p = Pending.chunk payload then some Pending.empty else none
  | .close => some Pending.empty

def chanSpec (p : Pending) (tr : List CEv) : Option Pending := tr.foldlM chanStep p

/-- Chunks returned by the reads of a channel, in order. -/
def readChunks (tr : List CEv) : List (List Nat) :=
  tr.filterMap fun e => match e with
    | .read chunk => some chunk
    | _ => none

/-- Payloads of the outbound descriptors of a channel, in order. -/
def sentPayloads (tr : List CEv) : List (List Nat) :=
  tr.filterMap fun e => match e with
    | .tx payload => some payload
    | _ => none

def Pending.toList : Pending → List (List Nat)
  | .empty => []
  | .chunk bytes => [bytes]

/-- The pending chunk according to the channel's `out_length` and `out_buf`. -/
def pendingOf (v : View) : Pending :=
  if 0 < v.out_length then Pending.chunk (v.out_buf.take v.out_length) else Pending.empty

/-- Log entries that respect the connection table: `accept` stores its handle
into an empty slot, `write` goes to a held handle. -/
def goodEv : Ev → Prop
  | .accept _ old _ => old = -1
  | .write _ fd _ => fd ≠ -1
  | _ => True

/-- Per-channel invariant, valid between any two loop bodies. -/
structure VInv (v : View) : Prop where
  masked : v.conn.fd ≠ -1 → v.sock.events = 0
  bound : v.out_length ≤ BUFSIZE
  pending : 0 < v.out_length → v.conn.fd ≠ -1 ∧ v.conn.events &&& POLLIN = 0
  opened : v.obit = true ↔ v.conn.fd ≠ -1
  wopen : v.wbit = true → v.obit = true
  enabled : v.status ≠ 0 → v.conn.fd = -1 ∧ v.sock.events = 0

/-- The channel's log follows the reference behaviour and ends in the state
described by `out_length` and `out_buf`. -/
def TraceOK (v : View) : Prop := chanSpec Pending.empty v.trace = some (pendingOf v)

/-- The poll model for the connection entry of a channel, after `poll`. -/
structure ConnPolled (v : View) : Prop where
  neg : v.conn.fd < 0 → v.conn.revents = 0
  pin : v.conn.revents &&& POLLIN ≠ 0 → v.conn.events &&& POLLIN ≠ 0

/-- The poll model for the listen entry of a channel, after `poll`. -/
def SockPolled (v : View) : Prop :=
  v.sock.revents &&& POLLIN ≠ 0 → v.sock.events &&& POLLIN ≠ 0

/-- Invariant of the loop at every point between two loop bodies. -/
structure Inv (s : State) : Prop where
  wlt : s.writable < 8
  olt : s.channels_open < 8
  rlt : s.retries ≤ 15
  logok : ∀ e ∈ s.log, goodEv e
  chan : ∀ j, j < N_CHANNEL → VInv (view j s)
  trace : ∀ j, j < N_CHANNEL → TraceOK (view j s)

/-- Log entries a loop body other than the data ioctl may add: entries that
respect the connection table and are not a data ioctl. -/
def quiet (e : Ev) : Prop := goodEv e ∧ ∀ d, e ≠ Ev.xfer d

/-- The log of `s1` extends the log of `s` by quiet entries. -/
def Grows (s s1 : State) : Prop := ∃ l, s1.log = s.log ++ l ∧ ∀ e ∈ l, quiet e

/-- Descriptor lists of the data ioctls in a log. -/
def xfers (log : List Ev) : List (List Desc) :=
  log.filterMap fun e => match e with
    | .xfer d => some d
    | _ => none

/-- The flag bytes use bits 0..2 only and the retry counter has a given value. -/
def Rest (r : Nat) (s : State) : Prop :=
  s.writable < 8 ∧ s.channels_open < 8 ∧ s.retries = r

/-- The log entry of the header exchange issued from state `s`. -/
def headerEv (inp : Input) (s : State) : Ev :=
  Ev.header (tx_buf s) ((List.range (2 + N_CHANNEL)).map (rx_buf inp))

/-- The state left by the enable-delta step (with `retries` reset) in a cycle
with a valid header reply, from the state `s` in which the header is built. -/
def afterStatus (inp : Input) (s : State) : State :=
  (statusLoop (rx_buf inp) (s.emit (headerEv inp s))).setRetries 0

/-- The descriptor list built for the data transfer of the cycle. -/
def dataDescs (inp : Input) (s : State) : List Desc :=
  (descLoop (rx_buf inp) (afterStatus inp s)).2

/-- The state in which the header of the cycle is built, for a cycle that
gets that far. -/
def headerState (s : State) (inp : Input) : State :=
  match socketPhase s inp with
  | .ok sA => sA
  | .error _ => s

/-- The connection table and the flag bytes agree: the flag bytes use bits
0..2 only, the `channels_open` bit of a channel is set exactly when the channel
holds a connection, and a `writable` bit is set only on an open channel. -/
def FlagsOK (s : State) : Prop :=
  (∀ k, 3 ≤ k → s.writable.testBit k = false ∧ s.channels_open.testBit k = false) ∧
  ∀ i, i < N_CHANNEL →
    (s.channels_open.testBit i = true ↔ (s.fds (CONN_POLL i)).fd ≠ -1) ∧
    (s.writable.testBit i = true → s.channels_open.testBit i = true)

/-- No system call of the cycle fails. -/
def Clean (inp : Input) : Prop :=
  0 ≤ inp.poll_ret ∧ 0 ≤ inp.irq_read_ret ∧ 0 ≤ inp.sync_low_ret ∧
  (∀ i, i < N_CHANNEL → inp.accept_ret i ≠ -1) ∧
  0 ≤ inp.hdr_status ∧ 0 ≤ inp.sync_high_ret ∧ 0 ≤ inp.data_status

instance (inp : Input) : Decidable (Clean inp) := by
  unfold Clean; infer_instance

/-- States the loop reaches from `s` under the poll model. -/
inductive Steps (s : State) : State → Prop where
  | here : Steps s s
  | next {a b : State} (inp : Input) :
      Steps s a → PollModel a inp → cycle a inp = .ok b → Steps s b

/-- The state in which the received data is delivered to the clients: after
the data ioctl of a cycle with a valid header reply, from the state `s` in
which the header is built. -/
def deliverState (inp : Input) (s : State) : State :=
  (dataDescs inp s).foldl (xferDesc inp)
    ((descLoop (rx_buf inp) (afterStatus inp s)).1.emit (Ev.xfer (dataDescs inp s)))

/-! ## Scenarios -/

/-- A header reply as a function of the byte offset. -/
def reply (bytes : List Nat) : Nat → Nat := fun k => bytes.getD k 0

/-- A cycle in which `poll` times out and the peer replies `hdr`; an `accept`,
were it called, would return handle 7. -/
def idleInput (hdr : List Nat) : Input :=
  { poll_ret := 0, revents := fun _ => 0, irq_read_ret := 2, sync_low_ret := 1,
    accept_ret := fun _ => 7, read_ret := fun _ => ReadResult.error, hdr_status := 0,
    hdr_rx := reply hdr, sync_high_ret := 1, data_status := 0, miso := fun _ => [],
    write_ret := fun _ => 0 }

/-- A client connects to channel 0 (handle 7); the peer replies `hdr`. -/
def connectInput (hdr : List Nat) : Input :=
  { idleInput hdr with
    poll_ret := 1
    revents := fun k => if k = SOCK_POLL 0 then POLLIN else 0 }

/-- The client of channel 0 has written `"abc"`; the peer replies `hdr`. -/
def abcInput (hdr : List Nat) : Input :=
  { idleInput hdr with
    poll_ret := 1
    revents := fun k => if k = CONN_POLL 0 then POLLIN else 0
    read_ret := fun _ => ReadResult.data [97, 98, 99] }

/-- Startup with the IRQ pin on handle 3 and the listening sockets on 4, 5, 6. -/
def coldStart : State := init 3 (fun i => 4 + i)

/-- The state after a client connected to channel 0. -/
def connected : State := after coldStart (connectInput [0xCA, 0, 0, 0, 0])

/-- The state after the client of channel 0 wrote `"abc"` in a cycle in which
the peer was not ready to receive: the bytes stay pending. -/
def pendingAbc : State := after connected (abcInput [0xCA, 0, 0, 0, 0])

/-! ## Bit lemmas -/

theorem and_pow_ne_zero (w i : Nat) : (w &&& 2 ^ i ≠ 0) ↔ w.testBit i = true := by
  constructor
  · intro h
    by_contra hb
    apply h
    apply Nat.eq_of_testBit_eq
    intro k
    simp only [Nat.testBit_and, Nat.testBit_two_pow, Nat.zero_testBit]
    by_cases hk : i = k
    · subst hk; simp [hb]
    · simp [hk]
  · intro h h0
    have := congrArg (fun x => Nat.testBit x i) h0
    simp [Nat.testBit_and, Nat.testBit_two_pow, h] at this

theorem and_shift_ne_zero (w i : Nat) : (w &&& (1 <<< i) ≠ 0) ↔ w.testBit i = true := by
  rw [Nat.one_shiftLeft]; exact and_pow_ne_zero w i

theorem testBit_set8 (w k j : Nat) (hj : j < 8) :
    ((w ||| (1 <<< k)) % 256).testBit j = (w.testBit j || decide (k = j)) := by
  have : (256 : Nat) = 2 ^ 8 := by norm_num
  rw [this, Nat.testBit_mod_two_pow, Nat.testBit_or, Nat.one_shiftLeft, Nat.testBit_two_pow]
  simp [hj]

theorem testBit_clr8 (w k j : Nat) (hj : j < 8) :
    (w &&& (0xFF ^^^ (1 <<< k))).testBit j = (w.testBit j && !decide (k = j)) := by
  have : (0xFF : Nat) = 2 ^ 8 - 1 := by norm_num
  rw [Nat.testBit_and, Nat.testBit_xor, this, Nat.testBit_two_pow_sub_one, Nat.one_shiftLeft,
    Nat.testBit_two_pow]
  simp [hj]

theorem set8_lt (w k : Nat) (hw : w < 8) (hk : k < 3) : (w ||| (1 <<< k)) % 256 < 8 := by
  interval_cases w <;> interval_cases k <;> decide

theorem clr8_lt (w k : Nat) (hw : w < 8) : w &&& (0xFF ^^^ (1 <<< k)) < 8 :=
  lt_of_le_of_lt Nat.and_le_left hw

theorem status_ne_one (x i : Nat) (hi : i < 3) : (x &&& (0x10 <<< i)) % 256 ≠ 1 := by
  intro h
  have h2 : ((x &&& (0x10 <<< i)) % 256).testBit 0 = true := by rw [h]; rfl
  have e : (256 : Nat) = 2 ^ 8 := by norm_num
  rw [e, Nat.testBit_mod_two_pow, Nat.testBit_and] at h2
  interval_cases i <;> simp at h2

theorem in_iff (e : Nat) : (e &&& POLLIN ≠ 0) ↔ e.testBit 0 = true := and_pow_ne_zero e 0

theorem in_clr_in (e : Nat) : (e &&& (0xFFFF ^^^ POLLIN)) &&& POLLIN = 0 := by
  have h : ¬ ((e &&& (0xFFFF ^^^ POLLIN)) &&& POLLIN ≠ 0) := by
    rw [in_iff, Nat.testBit_and]; simp [POLLIN]
  exact not_not.mp h

theorem in_clr_out (e : Nat) :
    ((e &&& (0xFFFF ^^^ POLLOUT)) &&& POLLIN ≠ 0) ↔ (e &&& POLLIN ≠ 0) := by
  rw [in_iff, in_iff, Nat.testBit_and]
  have : (0xFFFF ^^^ POLLOUT).testBit 0 = true := by decide
  simp [this]

theorem in_set_out (e : Nat) : ((e ||| POLLOUT) &&& POLLIN ≠ 0) ↔ (e &&& POLLIN ≠ 0) := by
  rw [in_iff, in_iff, Nat.testBit_or]
  have : (POLLOUT).testBit 0 = false := by decide
  simp [this]

/-! ## Views of the state after a store -/

theorem conn_ne_sock (j k : Nat) (hj : j < 3) : CONN_POLL j ≠ SOCK_POLL k := by
  simp only [CONN_POLL, SOCK_POLL, N_CHANNEL]; omega

theorem conn_inj (j k : Nat) : CONN_POLL j = CONN_POLL k ↔ j = k := by
  simp only [CONN_POLL]; omega

theorem sock_inj (j k : Nat) : SOCK_POLL j = SOCK_POLL k ↔ j = k := by
  simp only [SOCK_POLL]; omega

theorem view_setFd_conn (s : State) (j k : Nat) (x : Int) (hk : k < 3) :
    view j (s.setFd (CONN_POLL k) x) =
      if j = k then { view j s with conn := { (view j s).conn with fd := x } } else view j s := by
  by_cases h : j = k
  · subst h
    simp [view, State.setFd, upd, (conn_ne_sock j j hk).symm]
  · simp [view, State.setFd, upd, h, conn_inj, (conn_ne_sock k j hk).symm]

theorem view_setEvents_conn (s : State) (j k : Nat) (x : Nat) (hk : k < 3) :
    view j (s.setEvents (CONN_POLL k) x) =
      if j = k then { view j s with conn := { (view j s).conn with events := x } }
      else view j s := by
  by_cases h : j = k
  · subst h
    simp [view, State.setEvents, upd, (conn_ne_sock j j hk).symm]
  · simp [view, State.setEvents, upd, h, conn_inj, (conn_ne_sock k j hk).symm]

theorem view_setEvents_sock (s : State) (j k : Nat) (x : Nat) (hj : j < 3) :
    view j (s.setEvents (SOCK_POLL k) x) =
      if j = k then { view j s with sock := { (view j s).sock with events := x } }
      else view j s := by
  by_cases h : j = k
  · subst h
    simp [view, State.setEvents, upd, conn_ne_sock j j hj]
  · simp [view, State.setEvents, upd, h, sock_inj, conn_ne_sock j k hj]

theorem view_setOutLength (s : State) (j k : Nat) (x : Nat) :
    view j (s.setOutLength k x) =
      if j = k then { view j s with out_length := x } else view j s := by
  by_cases h : j = k
  · subst h; simp [view, State.setOutLength, upd]
  · simp [view, State.setOutLength, upd, h]

theorem view_setOutBuf (s : State) (j k : Nat) (x : List Nat) :
    view j (s.setOutBuf k x) =
      if j = k then { view j s with out_buf := x } else view j s := by
  by_cases h : j = k
  · subst h; simp [view, State.setOutBuf, upd]
  · simp [view, State.setOutBuf, upd, h]

theorem view_setInBuf (s : State) (j k : Nat) (x : List Nat) :
    view j (s.setInBuf k x) = view j s := by
  by_cases h : j = k
  · subst h; simp [view, State.setInBuf, upd]
  · simp [view, State.setInBuf, upd, h]

theorem view_emit (s : State) (j : Nat) (e : Ev) :
    view j (s.emit e) =
      { view j s with trace := (view j s).trace ++ (chanEv j e).toList } := by
  simp only [view, State.emit, chanEvs, List.filterMap_append]
  cases h : chanEv j e <;> simp [List.filterMap, h]

theorem view_clrWritable (s : State) (j k : Nat) (hj : j < 3) :
    view j (s.setWritable (s.writable &&& (0xFF ^^^ (1 <<< k)))) =
      { view j s with wbit := (view j s).wbit && !decide (k = j) } := by
  have hj8 : j < 8 := by omega
  simp [view, State.setWritable, testBit_clr8 _ _ _ hj8]

theorem view_orWritable (s : State) (j k : Nat) (hj : j < 3) :
    view j (s.setWritable ((s.writable ||| (1 <<< k)) % 256)) =
      { view j s with wbit := (view j s).wbit || decide (k = j) } := by
  have hj8 : j < 8 := by omega
  simp [view, State.setWritable, testBit_set8 _ _ _ hj8]

theorem view_clrOpen (s : State) (j k : Nat) (hj : j < 3) :
    view j (s.setOpen (s.channels_open &&& (0xFF ^^^ (1 <<< k)))) =
      { view j s with obit := (view j s).obit && !decide (k = j) } := by
  have hj8 : j < 8 := by omega
  simp [view, State.setOpen, testBit_clr8 _ _ _ hj8]

theorem view_orOpen (s : State) (j k : Nat) (hj : j < 3) :
    view j (s.setOpen ((s.channels_open ||| (1 <<< k)) % 256)) =
      { view j s with obit := (view j s).obit || decide (k = j) } := by
  have hj8 : j < 8 := by omega
  simp [view, State.setOpen, testBit_set8 _ _ _ hj8]

theorem view_setStatus (s : State) (j k : Nat) (x : Nat) :
    view j (s.setStatus k x) =
      if j = k then { view j s with status := x } else view j s := by
  by_cases h : j = k
  · subst h; simp [view, State.setStatus, upd]
  · simp [view, State.setStatus, upd, h]

theorem view_setRetries (s : State) (j : Nat) (r : Nat) :
    view j (s.setRetries r) = view j s := rfl

theorem view_close_connection (s : State) (j k : Nat) (hj : j < 3) (hk : k < 3) :
    view j (close_connection k s) = if j = k then closeV (view j s) else view j s := by
  by_cases h : j = k
  · subst h
    simp [close_connection, view_setEvents_sock, view_setOutLength, view_setFd_conn, view_emit,
      hj, chanEv, closeV]
  · have h2 : ¬ k = j := fun e => h e.symm
    simp [close_connection, view_setEvents_sock, view_setOutLength, view_setFd_conn, view_emit,
      hj, hk, chanEv, h, h2]

/-! ## The loop bodies on views -/

theorem view_pollFds (inp : Input) (s : State) (j : Nat) (hj : j < 3) :
    view j (pollFds inp s) = pollV inp j (view j s) := by
  have h1 : CONN_POLL j < N_POLLFDS := by simp only [CONN_POLL, N_POLLFDS, N_CHANNEL]; omega
  have h2 : SOCK_POLL j < N_POLLFDS := by simp only [SOCK_POLL, N_POLLFDS, N_CHANNEL]; omega
  simp [view, pollFds, pollV, h1, h2]

theorem view_acceptBody (inp : Input) (s s1 : State) (j k : Nat) (hj : j < 3) (hk : k < 3)
    (h : acceptBody inp k s = .ok s1) :
    if j = k then acceptV inp j (view j s) = .ok (view j s1) else view j s1 = view j s := by
  by_cases hp : (s.fds (SOCK_POLL k)).revents &&& POLLIN ≠ 0
  · by_cases hf : inp.accept_ret k = -1
    · simp [acceptBody, hp, hf] at h
    · simp only [acceptBody, if_pos hp, if_neg hf, Except.ok.injEq] at h
      subst h
      rw [view_orOpen _ _ _ hj, view_setEvents_sock _ _ _ _ hj, view_setEvents_conn _ _ _ _ hk,
        view_setFd_conn _ _ _ _ hk, view_emit]
      by_cases hjk : j = k
      · subst hjk
        have e : (view j s).sock.revents = (s.fds (SOCK_POLL j)).revents := rfl
        simp [acceptV, e, hp, hf, chanEv]
      · have h2 : ¬ k = j := fun e => hjk e.symm
        simp [hjk, h2, chanEv]
  · simp only [acceptBody, if_neg hp, Except.ok.injEq] at h
    subst h
    by_cases hjk : j = k
    · subst hjk
      have e : (view j s).sock.revents = (s.fds (SOCK_POLL j)).revents := rfl
      simp [acceptV, e, hp]
    · simp [hjk]

theorem readPart_snd (inp : Input) (s : State) (k : Nat) :
    (readPart inp k s).2 = (readV inp k (view k s)).2 := by
  have e : (view k s).conn.revents = (s.fds (CONN_POLL k)).revents := rfl
  by_cases hp : (s.fds (CONN_POLL k)).revents &&& POLLIN ≠ 0
  · by_cases hl : (inp.read_ret k).length > 0
    · simp only [readPart, readV, e, if_pos hp, if_pos hl]
    · simp only [readPart, readV, e, if_pos hp, if_neg hl]
  · simp only [readPart, readV, e, if_neg hp]

theorem view_readPart (inp : Input) (s : State) (j k : Nat) (hk : k < 3) :
    view j (readPart inp k s).1 = if j = k then (readV inp j (view j s)).1 else view j s := by
  by_cases hp : (s.fds (CONN_POLL k)).revents &&& POLLIN ≠ 0
  · by_cases hl : (inp.read_ret k).length > 0
    · simp only [readPart, if_pos hp, if_pos hl]
      rw [view_setOutLength, view_setEvents_conn _ _ _ _ hk, view_setOutBuf, view_emit]
      by_cases hjk : j = k
      · subst hjk
        have e : (view j s).conn.revents = (s.fds (CONN_POLL j)).revents := rfl
        simp only [readV, e, if_pos hp, if_pos hl]
        simp [chanEv, hl, view, State.setOutBuf, State.emit, upd]
      · have h2 : ¬ k = j := fun e => hjk e.symm
        simp [hjk, h2, chanEv]
    · simp only [readPart, if_pos hp, if_neg hl]
      rw [view_setEvents_conn _ _ _ _ hk, view_setOutBuf, view_emit]
      by_cases hjk : j = k
      · subst hjk
        have e : (view j s).conn.revents = (s.fds (CONN_POLL j)).revents := rfl
        simp only [readV, e, if_pos hp, if_neg hl]
        simp [chanEv, hl, view, State.setOutBuf, State.emit, upd]
      · have h2 : ¬ k = j := fun e => hjk e.symm
        simp [hjk, h2, chanEv]
  · simp only [readPart, if_neg hp]
    by_cases hjk : j = k
    · subst hjk
      have e : (view j s).conn.revents = (s.fds (CONN_POLL j)).revents := rfl
      simp only [readV, e, if_neg hp, if_true]
    · simp [hjk]

theorem view_sockBody (inp : Input) (s : State) (j k : Nat) (hj : j < 3) (hk : k < 3) :
    view j (sockBody inp k s) = if j = k then sockV inp j (view j s) else view j s := by
  have hr : ((readPart inp k s).1.fds (CONN_POLL k)).revents =
      (view k (readPart inp k s).1).conn.revents := rfl
  have he : ((readPart inp k s).1.fds (CONN_POLL k)).events =
      (view k (readPart inp k s).1).conn.events := rfl
  have hv := view_readPart inp s k k hk
  simp only [if_true] at hv
  have hvj := view_readPart inp s j k hk
  simp only [sockBody, hr, he, hv, readPart_snd]
  by_cases hjk : j = k
  · subst hjk
    simp only [if_true, sockV]
    split_ifs
    · rw [view_clrOpen _ _ _ hj, view_clrWritable _ _ _ hj, view_close_connection _ _ _ hj hj,
        if_pos rfl, hv]
      simp
    · rw [view_orWritable _ _ _ hj, view_setEvents_conn _ _ _ _ hj, if_pos rfl, hv]
      simp
    · exact hv
  · have h2 : ¬ k = j := fun e => hjk e.symm
    simp only [if_neg hjk] at hvj ⊢
    split_ifs
    · rw [view_clrOpen _ _ _ hj, view_clrWritable _ _ _ hj, view_close_connection _ _ _ hj hk,
        if_neg hjk, hvj]
      simp [h2]
    · rw [view_orWritable _ _ _ hj, view_setEvents_conn _ _ _ _ hk, if_neg hjk, hvj]
      simp [h2]
    · exact hvj

theorem view_statusBody (rx : Nat → Nat) (s : State) (j k : Nat) (hj : j < 3) (hk : k < 3) :
    view j (statusBody rx k s) = if j = k then statusV rx j (view j s) else view j s := by
  have hs : s.channel_status k = (view k s).status := rfl
  have h1 := status_ne_one (rx 1) k hk
  by_cases hc : (rx 1 &&& (0x10 <<< k)) % 256 = s.channel_status k
  · simp only [statusBody, if_pos hc]
    by_cases hjk : j = k
    · subst hjk
      rw [hs] at hc
      simp only [statusV, if_pos hc, if_true]
    · simp [hjk]
  · simp only [statusBody, if_neg hc, if_neg h1]
    rw [view_setStatus, view_setEvents_sock _ _ _ _ hj, view_clrOpen _ _ _ hj,
      view_clrWritable _ _ _ hj, view_close_connection _ _ _ hj hk]
    by_cases hjk : j = k
    · subst hjk
      rw [hs] at hc
      simp only [statusV, if_neg hc, if_neg h1, if_true]
      simp [closeV]
    · have h2 : ¬ k = j := fun e => hjk e.symm
      simp [hjk, h2]

theorem view_descBody (rx : Nat → Nat) (st : State × List Desc) (j k : Nat) (hk : k < 3) :
    view j (descBody rx k st).1 = if j = k then descV rx j (view j st.1) else view j st.1 := by
  have hl : (st.1.channels k).out_length = (view k st.1).out_length := rfl
  by_cases hc : rx 1 &&& (1 <<< k) ≠ 0 ∧ (st.1.channels k).out_length > 0
  · have e : (descBody rx k st).1 =
        (st.1.setEvents (CONN_POLL k) ((st.1.fds (CONN_POLL k)).events ||| POLLIN)).setOutLength
          k 0 := by
      simp only [descBody, if_pos hc]
      split_ifs <;> rfl
    rw [e, view_setOutLength, view_setEvents_conn _ _ _ _ hk]
    by_cases hjk : j = k
    · subst hjk
      rw [hl] at hc
      simp only [descV, if_pos hc, if_true]
      rfl
    · simp [hjk]
  · have e : (descBody rx k st).1 = st.1 := by
      simp only [descBody, if_neg hc]
      split_ifs <;> rfl
    rw [e]
    by_cases hjk : j = k
    · subst hjk
      rw [hl] at hc
      simp only [descV, if_neg hc, if_true]
    · simp [hjk]

theorem descBody_snd (rx : Nat → Nat) (st : State × List Desc) (k : Nat) :
    (descBody rx k st).2 = st.2 ++ (txDesc rx k (view k st.1) ++ rxDesc rx k (view k st.1)) := by
  have hl : (view k st.1).out_length = (st.1.channels k).out_length := rfl
  have hw : ∀ s : State, (s.writable &&& (1 <<< k) ≠ 0) ↔ s.writable.testBit k = true :=
    fun s => and_shift_ne_zero _ _
  have hb : (view k st.1).wbit = st.1.writable.testBit k := rfl
  by_cases hc : rx 1 &&& (1 <<< k) ≠ 0 ∧ (st.1.channels k).out_length > 0
  · by_cases hd : st.1.writable.testBit k = true ∧ rx (2 + k) > 0
    · have hd2 : ((st.1.setEvents (CONN_POLL k) ((st.1.fds (CONN_POLL k)).events ||| POLLIN)).setOutLength
          k 0).writable &&& (1 <<< k) ≠ 0 ∧ rx (2 + k) > 0 := ⟨(hw _).mpr hd.1, hd.2⟩
      simp only [descBody, txDesc, rxDesc, hl, hb, if_pos hc, if_pos hd, if_pos hd2]
      simp
    · have hd2 : ¬ (((st.1.setEvents (CONN_POLL k) ((st.1.fds (CONN_POLL k)).events ||| POLLIN)).setOutLength
          k 0).writable &&& (1 <<< k) ≠ 0 ∧ rx (2 + k) > 0) := fun h => hd ⟨(hw _).mp h.1, h.2⟩
      simp only [descBody, txDesc, rxDesc, hl, hb, if_pos hc, if_neg hd, if_neg hd2]
      simp
  · by_cases hd : st.1.writable.testBit k = true ∧ rx (2 + k) > 0
    · have hd2 : st.1.writable &&& (1 <<< k) ≠ 0 ∧ rx (2 + k) > 0 := ⟨(hw _).mpr hd.1, hd.2⟩
      simp only [descBody, txDesc, rxDesc, hl, hb, if_neg hc, if_pos hd, if_pos hd2]
      simp
    · have hd2 : ¬ (st.1.writable &&& (1 <<< k) ≠ 0 ∧ rx (2 + k) > 0) :=
        fun h => hd ⟨(hw _).mp h.1, h.2⟩
      simp only [descBody, txDesc, rxDesc, hl, hb, if_neg hc, if_neg hd, if_neg hd2]
      simp

theorem view_xferDesc (inp : Input) (s : State) (d : Desc) (j : Nat) :
    view j (xferDesc inp s d) = xferV j [d] (view j s) := by
  have ho : ∀ c, (s.channels c).out_buf = (view c s).out_buf := fun _ => rfl
  rcases d with ⟨t, r, l⟩
  cases t <;> cases r <;>
    simp only [xferDesc, xferV, txPayloads, view_setInBuf, view_emit, List.filterMap_cons,
      List.filterMap_nil, chanEv, ho]
  · simp
  · simp
  · rename_i c
    by_cases hc : c = j
    · subst hc; simp
    · simp [hc]
  · rename_i c _
    by_cases hc : c = j
    · subst hc; simp
    · simp [hc]

theorem xferV_cons (j : Nat) (d : Desc) (ds : List Desc) (v : View) :
    xferV j ds (xferV j [d] v) = xferV j (d :: ds) v := by
  simp [xferV, txPayloads, List.filterMap_cons]
  cases d.tx_buf <;> simp
  split_ifs <;> simp

theorem view_xferLoop (inp : Input) (descs : List Desc) (s : State) (j : Nat) :
    view j (descs.foldl (xferDesc inp) s) = xferV j descs (view j s) := by
  induction descs generalizing s with
  | nil => simp [xferV, txPayloads]
  | cons d ds ih => rw [List.foldl_cons, ih, view_xferDesc, xferV_cons]

theorem view_deliverBody (rx : Nat → Nat) (s : State) (j k : Nat) (hj : j < 3) (hk : k < 3) :
    view j (deliverBody rx k s) = if j = k then deliverV rx j (view j s) else view j s := by
  have hw : (s.writable &&& (1 <<< k) ≠ 0) ↔ (view k s).wbit = true := and_shift_ne_zero _ _
  by_cases hc : s.writable &&& (1 <<< k) ≠ 0 ∧ rx (2 + k) > 0
  · simp only [deliverBody, if_pos hc]
    rw [view_clrWritable _ _ _ hj, view_setEvents_conn _ _ _ _ hk, view_emit]
    by_cases hjk : j = k
    · subst hjk
      have hc2 : (view j s).wbit = true ∧ rx (2 + j) > 0 := ⟨hw.mp hc.1, hc.2⟩
      simp only [deliverV, if_pos hc2, if_true]
      simp [chanEv, view, State.emit]
    · have h2 : ¬ k = j := fun e => hjk e.symm
      simp [hjk, h2, chanEv]
  · simp only [deliverBody, if_neg hc]
    by_cases hjk : j = k
    · subst hjk
      have hc2 : ¬ ((view j s).wbit = true ∧ rx (2 + j) > 0) := fun h => hc ⟨hw.mpr h.1, h.2⟩
      simp only [deliverV, if_neg hc2, if_true]
    · simp [hjk]

/-! ## Loops -/

theorem range3 : List.range N_CHANNEL = [0, 1, 2] := by decide

theorem view_loop (b : Nat → State → State) (f : Nat → View → View)
    (hb : ∀ s j k, j < 3 → k < 3 →
      view j (b k s) = if j = k then f j (view j s) else view j s)
    (s : State) (j : Nat) (hj : j < 3) :
    view j ((List.range N_CHANNEL).foldl (fun s i => b i s) s) = f j (view j s) := by
  rw [range3]
  simp only [List.foldl]
  have h0 := fun s => hb s j 0 hj (by omega)
  have h1 := fun s => hb s j 1 hj (by omega)
  have h2 := fun s => hb s j 2 hj (by omega)
  rw [h2, h1, h0]
  interval_cases j <;> simp

theorem loop_inv (b : Nat → State → State) (P : State → Prop)
    (hb : ∀ s k, k < 3 → P s → P (b k s)) (s : State) (h : P s) :
    P ((List.range N_CHANNEL).foldl (fun s i => b i s) s) := by
  rw [range3]
  simp only [List.foldl]
  exact hb _ 2 (by omega) (hb _ 1 (by omega) (hb _ 0 (by omega) h))

theorem Grows.refl (s : State) : Grows s s := ⟨[], by simp, by simp⟩

theorem Grows.trans {a b c : State} (h1 : Grows a b) (h2 : Grows b c) : Grows a c := by
  obtain ⟨l1, e1, q1⟩ := h1
  obtain ⟨l2, e2, q2⟩ := h2
  refine ⟨l1 ++ l2, by rw [e2, e1, List.append_assoc], ?_⟩
  intro e he
  rcases List.mem_append.mp he with h | h
  · exact q1 e h
  · exact q2 e h

theorem Grows.of_log_eq {a b : State} (h : b.log = a.log) : Grows a b :=
  ⟨[], by simp [h], by simp⟩

theorem Grows.emit (s : State) (e : Ev) (h : quiet e) : Grows s (s.emit e) :=
  ⟨[e], rfl, by simpa using h⟩

theorem loop_grows (b : Nat → State → State) (f : Nat → View → View)
    (hb : ∀ s j k, j < 3 → k < 3 →
      view j (b k s) = if j = k then f j (view j s) else view j s)
    (pre : View → Prop)
    (hg : ∀ s k, k < 3 → pre (view k s) → Grows s (b k s))
    (s : State) (hpre : ∀ k, k < 3 → pre (view k s)) :
    Grows s ((List.range N_CHANNEL).foldl (fun s i => b i s) s) := by
  rw [range3]
  simp only [List.foldl]
  have g0 := hg s 0 (by omega) (hpre 0 (by omega))
  have v1 : view 1 (b 0 s) = view 1 s := by rw [hb s 1 0 (by omega) (by omega)]; simp
  have g1 := hg (b 0 s) 1 (by omega) (by rw [v1]; exact hpre 1 (by omega))
  have v2 : view 2 (b 1 (b 0 s)) = view 2 s := by
    rw [hb _ 2 1 (by omega) (by omega), hb _ 2 0 (by omega) (by omega)]; simp
  have g2 := hg (b 1 (b 0 s)) 2 (by omega) (by rw [v2]; exact hpre 2 (by omega))
  exact (g0.trans g1).trans g2

theorem acceptLoop_ok (inp : Input) (s s1 : State) (h : acceptLoop inp s = .ok s1) :
    ∃ a b, acceptBody inp 0 s = .ok a ∧ acceptBody inp 1 a = .ok b ∧
      acceptBody inp 2 b = .ok s1 := by
  unfold acceptLoop at h
  rw [range3] at h
  simp only [List.foldlM, bind, Except.bind] at h
  cases h0 : acceptBody inp 0 s with
  | error e => simp [h0] at h
  | ok a =>
    simp only [h0] at h
    cases h1 : acceptBody inp 1 a with
    | error e => simp [h1] at h
    | ok b =>
      simp only [h1] at h
      cases h2 : acceptBody inp 2 b with
      | error e => simp [h2] at h
      | ok c =>
        simp only [h2, pure, Except.pure, Except.ok.injEq] at h
        exact ⟨a, b, rfl, h1, by rw [h2, h]⟩

theorem view_acceptLoop (inp : Input) (s s1 : State) (h : acceptLoop inp s = .ok s1)
    (j : Nat) (hj : j < 3) : acceptV inp j (view j s) = .ok (view j s1) := by
  obtain ⟨a, b, h0, h1, h2⟩ := acceptLoop_ok inp s s1 h
  have a0 := view_acceptBody inp s a j 0 hj (by omega) h0
  have a1 := view_acceptBody inp a b j 1 hj (by omega) h1
  have a2 := view_acceptBody inp b s1 j 2 hj (by omega) h2
  interval_cases j
  · simp at a0 a1 a2
    rw [a2, a1]; exact a0
  · simp at a0 a1 a2
    rw [a2, ← a0]; exact a1
  · simp at a0 a1 a2
    rw [← a0, ← a1]; exact a2

/-! ## The per-channel invariant -/

theorem chanSpec_snoc (p : Pending) (tr : List CEv) (e : CEv) :
    chanSpec p (tr ++ [e]) = (chanSpec p tr).bind (fun q => chanStep q e) := by
  simp only [chanSpec, List.foldlM_append, List.foldlM_cons, List.foldlM_nil]
  cases List.foldlM chanStep p tr with
  | none => rfl
  | some q =>
    simp only [Option.bind_eq_bind, Option.some_bind, Option.bind_some]
    cases chanStep q e <;> rfl

theorem vinv_pollV (inp : Input) (j : Nat) (v : View) (h : VInv v) : VInv (pollV inp j v) :=
  ⟨h.masked, h.bound, h.pending, h.opened, h.wopen, h.enabled⟩

theorem accept_free (v : View) (hI : VInv v) (hS : SockPolled v)
    (hp : v.sock.revents &&& POLLIN ≠ 0) : v.conn.fd = -1 := by
  by_contra hf
  have h0 := hI.masked hf
  have h1 := hS hp
  rw [h0] at h1
  exact h1 (by decide)

theorem vinv_acceptV (inp : Input) (j : Nat) (v v2 : View) (hI : VInv v) (hS : SockPolled v)
    (hC : ConnPolled v) (h : acceptV inp j v = .ok v2) :
    VInv v2 ∧ ConnPolled v2 ∧ v2.trace = v.trace ∧ pendingOf v2 = pendingOf v := by
  by_cases hp : v.sock.revents &&& POLLIN ≠ 0
  · have hfree := accept_free v hI hS hp
    by_cases hf : inp.accept_ret j = -1
    · simp [acceptV, hp, hf] at h
    · simp only [acceptV, if_pos hp, if_neg hf, Except.ok.injEq] at h
      subst h
      have hrev : v.conn.revents = 0 := hC.neg (by rw [hfree]; decide)
      have hlen : v.out_length = 0 := by
        by_contra hl
        exact (hI.pending (Nat.pos_of_ne_zero hl)).1 hfree
      have hst : v.status = 0 := by
        by_contra hs
        have h0 := (hI.enabled hs).2
        have h1 := hS hp
        rw [h0] at h1
        exact h1 (by decide)
      refine ⟨⟨?_, ?_, ?_, ?_, ?_, ?_⟩, ⟨?_, ?_⟩, rfl, rfl⟩
      · intro _; rfl
      · exact hI.bound
      · intro hl; simp only [hlen] at hl; exact absurd hl (by decide)
      · simp only [true_iff]; exact hf
      · intro _; rfl
      · intro hs; exact absurd hst hs
      · intro _; exact hrev
      · intro hq; simp only [hrev] at hq; exact absurd hq (by decide)
  · simp only [acceptV, if_neg hp, Except.ok.injEq] at h
    subst h
    exact ⟨hI, hC, rfl, rfl⟩

theorem read_length_toNat (r : ReadResult) : r.length.toNat = r.chunk.length := by
  cases r with
  | error => rfl
  | data bytes =>
    show ((List.take BUFSIZE bytes).length : Int).toNat = (List.take BUFSIZE bytes).length
    exact Int.toNat_ofNat _

theorem overwrite_take (buf : List Nat) (r : ReadResult) :
    (overwrite buf r.chunk).take r.length.toNat = r.chunk := by
  rw [read_length_toNat, overwrite, List.take_left']
  rfl

theorem read_length_le (r : ReadResult) : r.length.toNat ≤ BUFSIZE := by
  cases r with
  | error => simp [ReadResult.length]
  | data bytes => simp [ReadResult.length, List.length_take]

theorem vinv_closeV (v : View) (hs : v.status = 0) (ht : TraceOK v) :
    VInv { closeV v with wbit := false, obit := false } ∧
      TraceOK { closeV v with wbit := false, obit := false } := by
  refine ⟨⟨?_, ?_, ?_, ?_, ?_, ?_⟩, ?_⟩
  · intro h; exact absurd rfl h
  · simp [closeV]
  · intro h; simp [closeV] at h
  · simp [closeV]
  · intro h; simp at h
  · intro h; exact absurd hs h
  · unfold TraceOK at ht ⊢
    simp only [closeV, chanSpec_snoc, ht]
    simp [chanStep, pendingOf]

theorem vinv_sockV (inp : Input) (j : Nat) (v : View) (hI : VInv v) (hC : ConnPolled v)
    (ht : TraceOK v) : VInv (sockV inp j v) ∧ TraceOK (sockV inp j v) := by
  have hheld : v.conn.revents ≠ 0 → v.conn.fd ≠ -1 := by
    intro hr hf
    exact hr (hC.neg (by rw [hf]; decide))
  have hand : ∀ m, v.conn.revents &&& m ≠ 0 → v.conn.revents ≠ 0 := by
    intro m hm h0
    rw [h0] at hm
    simp at hm
  have hstat : v.conn.revents ≠ 0 → v.status = 0 := by
    intro hr
    by_contra hs
    exact hheld hr (hI.enabled hs).1
  -- the state after the read part
  have hread : VInv (readV inp j v).1 ∧ TraceOK (readV inp j v).1 ∧
      (readV inp j v).1.conn.revents = v.conn.revents ∧ (readV inp j v).1.status = v.status ∧
      ((readV inp j v).2 = true → v.conn.revents ≠ 0) := by
    by_cases hp : v.conn.revents &&& POLLIN ≠ 0
    · have hlen : v.out_length = 0 := by
        by_contra hl
        exact hC.pin hp (hI.pending (Nat.pos_of_ne_zero hl)).2
      have hpend : pendingOf v = Pending.empty := by simp [pendingOf, hlen]
      by_cases hl : (inp.read_ret j).length > 0
      · simp only [readV, if_pos hp, if_pos hl]
        refine ⟨⟨hI.masked, read_length_le _, ?_, hI.opened, hI.wopen, hI.enabled⟩, ?_, trivial,
          trivial, ?_⟩
        · intro _
          exact ⟨hheld (hand _ hp), in_clr_in _⟩
        · unfold TraceOK at ht ⊢
          simp only [chanSpec_snoc, ht, hpend]
          have hpos : 0 < (inp.read_ret j).length.toNat := by omega
          simp [chanStep, pendingOf, hpos, overwrite_take]
        · intro h; cases h
      · simp only [readV, if_pos hp, if_neg hl]
        refine ⟨⟨hI.masked, hI.bound, ?_, hI.opened, hI.wopen, hI.enabled⟩, ?_, trivial, trivial,
          ?_⟩
        · intro h0; simp only [hlen] at h0; exact absurd h0 (by decide)
        · unfold TraceOK at ht ⊢
          simp only [ht]
          simp [pendingOf, hlen]
        · intro _; exact hand _ hp
    · simp only [readV, if_neg hp]
      exact ⟨hI, ht, trivial, trivial, fun h => by cases h⟩
  obtain ⟨hI1, ht1, hrev, hst, hcl⟩ := hread
  simp only [sockV]
  split_ifs with hclose hout
  · have hr : v.conn.revents ≠ 0 := by
      rcases hclose with h | h | h | h
      · exact hcl h
      · rw [hrev] at h; exact hand _ h
      · rw [hrev] at h; exact hand _ h
      · rw [hrev] at h; exact hand _ h
    exact vinv_closeV _ (by rw [hst]; exact hstat hr) ht1
  · rw [hrev] at hout
    have hfd : (readV inp j v).1.conn.fd ≠ -1 := by
      have := hheld (hand _ hout)
      by_cases hp : v.conn.revents &&& POLLIN ≠ 0
      · by_cases hl : (inp.read_ret j).length > 0
        · simpa only [readV, if_pos hp, if_pos hl] using this
        · simpa only [readV, if_pos hp, if_neg hl] using this
      · simpa only [readV, if_neg hp] using this
    refine ⟨⟨hI1.masked, hI1.bound, ?_, hI1.opened, ?_, hI1.enabled⟩, ?_⟩
    · intro hl
      refine ⟨(hI1.pending hl).1, ?_⟩
      have h2 := (hI1.pending hl).2
      by_contra hne
      exact ((in_clr_out _).mp hne) h2
    · intro _; exact hI1.opened.mpr hfd
    · exact ht1
  · exact ⟨hI1, ht1⟩

theorem statusV_changed (rx : Nat → Nat) (j : Nat) (hj : j < 3) (v : View)
    (hc : (rx 1 &&& (0x10 <<< j)) % 256 ≠ v.status) :
    statusV rx j v =
      { closeV v with
        wbit := false
        obit := false
        sock := { v.sock with events := 0 }
        status := (rx 1 &&& (0x10 <<< j)) % 256 } := by
  simp only [statusV, if_neg hc, if_neg (status_ne_one (rx 1) j hj)]

theorem statusV_same (rx : Nat → Nat) (j : Nat) (v : View)
    (hc : (rx 1 &&& (0x10 <<< j)) % 256 = v.status) : statusV rx j v = v := by
  simp only [statusV, if_pos hc]

theorem vinv_statusV (rx : Nat → Nat) (j : Nat) (hj : j < 3) (v : View) (hI : VInv v)
    (ht : TraceOK v) : VInv (statusV rx j v) ∧ TraceOK (statusV rx j v) := by
  by_cases hc : (rx 1 &&& (0x10 <<< j)) % 256 = v.status
  · rw [statusV_same rx j v hc]; exact ⟨hI, ht⟩
  · rw [statusV_changed rx j hj v hc]
    refine ⟨⟨?_, ?_, ?_, ?_, ?_, ?_⟩, ?_⟩
    · intro h; exact absurd rfl h
    · simp [closeV]
    · intro h; simp [closeV] at h
    · simp [closeV]
    · intro h; simp at h
    · intro _; exact ⟨rfl, rfl⟩
    · unfold TraceOK at ht ⊢
      simp only [closeV, chanSpec_snoc, ht]
      simp [chanStep, pendingOf]

theorem txPayloads_txDesc (rx : Nat → Nat) (j : Nat) (v : View) :
    txPayloads j v.out_buf (txDesc rx j v) =
      if rx 1 &&& (1 <<< j) ≠ 0 ∧ v.out_length > 0 then [CEv.tx (v.out_buf.take v.out_length)]
      else [] := by
  unfold txDesc txPayloads
  split_ifs <;> simp

theorem vinv_xferV (rx : Nat → Nat) (j : Nat) (descs : List Desc) (v : View) (hI : VInv v)
    (ht : TraceOK v)
    (hd : txPayloads j v.out_buf descs = txPayloads j v.out_buf (txDesc rx j v)) :
    VInv (xferV j descs (descV rx j v)) ∧ TraceOK (xferV j descs (descV rx j v)) := by
  have hob : (descV rx j v).out_buf = v.out_buf := by
    unfold descV; split_ifs <;> rfl
  have htr : (descV rx j v).trace = v.trace := by
    unfold descV; split_ifs <;> rfl
  unfold TraceOK
  simp only [xferV, hob, htr, hd, txPayloads_txDesc]
  by_cases hc : rx 1 &&& (1 <<< j) ≠ 0 ∧ v.out_length > 0
  · simp only [descV, if_pos hc]
    refine ⟨⟨hI.masked, Nat.zero_le _, ?_, hI.opened, hI.wopen, hI.enabled⟩, ?_⟩
    · intro h; exact absurd h (Nat.lt_irrefl 0)
    · unfold TraceOK at ht
      simp only [chanSpec_snoc, ht]
      have hpos : 0 < v.out_length := hc.2
      simp [chanStep, pendingOf, hpos]
  · simp only [descV, if_neg hc, List.append_nil]
    exact ⟨hI, ht⟩

theorem vinv_deliverV (rx : Nat → Nat) (j : Nat) (u : View) (hI1 : VInv u) (ht1 : TraceOK u) :
    VInv (deliverV rx j u) ∧ TraceOK (deliverV rx j u) := by
  unfold deliverV
  split_ifs with hw
  · refine ⟨⟨hI1.masked, hI1.bound, ?_, hI1.opened, ?_, hI1.enabled⟩, ht1⟩
    · intro hl
      refine ⟨(hI1.pending hl).1, ?_⟩
      have h2 := (hI1.pending hl).2
      by_contra hne
      exact ((in_set_out _).mp hne) h2
    · intro h; simp at h
  · exact ⟨hI1, ht1⟩

/-! ## The loop bodies on the rest of the state -/

theorem quiet_close (c : Nat) (fd : Int) : quiet (Ev.close c fd) :=
  ⟨trivial, fun d h => by cases h⟩

theorem grows_close_connection (k : Nat) (s : State) : Grows s (close_connection k s) :=
  ⟨[Ev.close k (s.fds (CONN_POLL k)).fd], rfl, by
    intro e he
    simp only [List.mem_singleton] at he
    subst he
    exact quiet_close _ _⟩

theorem grows_acceptBody (inp : Input) (k : Nat) (s s1 : State)
    (hpre : (view k s).sock.revents &&& POLLIN ≠ 0 → (view k s).conn.fd = -1)
    (h : acceptBody inp k s = .ok s1) : Grows s s1 := by
  by_cases hp : (s.fds (SOCK_POLL k)).revents &&& POLLIN ≠ 0
  · by_cases hf : inp.accept_ret k = -1
    · simp [acceptBody, hp, hf] at h
    · simp only [acceptBody, if_pos hp, if_neg hf, Except.ok.injEq] at h
      subst h
      refine ⟨[Ev.accept k (s.fds (CONN_POLL k)).fd (inp.accept_ret k)], rfl, ?_⟩
      intro e he
      simp only [List.mem_singleton] at he
      subst he
      exact ⟨hpre hp, fun d h => by cases h⟩
  · simp only [acceptBody, if_neg hp, Except.ok.injEq] at h
    subst h
    exact Grows.refl s

theorem grows_readPart (inp : Input) (k : Nat) (s : State) : Grows s (readPart inp k s).1 := by
  have hq : ∀ x y z, quiet (Ev.read k x y z) := fun _ _ _ => ⟨trivial, fun d h => by cases h⟩
  by_cases hp : (s.fds (CONN_POLL k)).revents &&& POLLIN ≠ 0
  · by_cases hl : (inp.read_ret k).length > 0
    · simp only [readPart, if_pos hp, if_pos hl]
      exact ⟨[_], rfl, by
        intro e he; simp only [List.mem_singleton] at he; subst he; exact hq _ _ _⟩
    · simp only [readPart, if_pos hp, if_neg hl]
      exact ⟨[_], rfl, by
        intro e he; simp only [List.mem_singleton] at he; subst he; exact hq _ _ _⟩
  · simp only [readPart, if_neg hp]
    exact Grows.refl s

theorem grows_sockBody (inp : Input) (k : Nat) (s : State) : Grows s (sockBody inp k s) := by
  have h1 := grows_readPart inp k s
  unfold sockBody
  simp only []
  split_ifs
  · exact h1.trans (grows_close_connection k _)
  · exact h1
  · exact h1

theorem grows_statusBody (rx : Nat → Nat) (k : Nat) (s : State) :
    Grows s (statusBody rx k s) := by
  unfold statusBody
  simp only []
  split_ifs
  · exact Grows.refl s
  · exact Grows.refl s
  · exact grows_close_connection k s

theorem log_descBody (rx : Nat → Nat) (k : Nat) (st : State × List Desc) :
    (descBody rx k st).1.log = st.1.log := by
  unfold descBody
  simp only []
  split_ifs <;> rfl

theorem grows_xferDesc (inp : Input) (s : State) (d : Desc) : Grows s (xferDesc inp s d) := by
  have hq : ∀ x y, quiet (Ev.tx x y) := fun _ _ => ⟨trivial, fun d h => by cases h⟩
  rcases d with ⟨t, r, l⟩
  cases t <;> cases r <;> simp only [xferDesc]
  · exact Grows.refl s
  · exact Grows.refl s
  · exact Grows.emit _ _ (hq _ _)
  · exact (Grows.emit _ _ (hq _ _)).trans (Grows.refl _)

theorem grows_xferLoop (inp : Input) (descs : List Desc) (s : State) :
    Grows s (descs.foldl (xferDesc inp) s) := by
  induction descs generalizing s with
  | nil => exact Grows.refl s
  | cons d ds ih => exact (grows_xferDesc inp s d).trans (ih _)

theorem grows_deliverBody (rx : Nat → Nat) (k : Nat) (s : State)
    (hpre : (view k s).wbit = true → (view k s).conn.fd ≠ -1) :
    Grows s (deliverBody rx k s) := by
  unfold deliverBody
  simp only []
  split_ifs with hc
  · refine ⟨[_], rfl, ?_⟩
    intro e he
    simp only [List.mem_singleton] at he
    subst he
    exact ⟨hpre ((and_shift_ne_zero _ _).mp hc.1), fun d h => by cases h⟩
  · exact Grows.refl s

theorem rest_acceptBody (inp : Input) (k : Nat) (hk : k < 3) (r : Nat) (s s1 : State)
    (hR : Rest r s) (h : acceptBody inp k s = .ok s1) : Rest r s1 := by
  by_cases hp : (s.fds (SOCK_POLL k)).revents &&& POLLIN ≠ 0
  · by_cases hf : inp.accept_ret k = -1
    · simp [acceptBody, hp, hf] at h
    · simp only [acceptBody, if_pos hp, if_neg hf, Except.ok.injEq] at h
      subst h
      exact ⟨hR.1, set8_lt _ _ hR.2.1 hk, hR.2.2⟩
  · simp only [acceptBody, if_neg hp, Except.ok.injEq] at h
    subst h
    exact hR

theorem rest_readPart (inp : Input) (k : Nat) (r : Nat) (s : State) (hR : Rest r s) :
    Rest r (readPart inp k s).1 := by
  unfold readPart
  simp only []
  split_ifs <;> exact hR

theorem rest_sockBody (inp : Input) (r : Nat) (s : State) (k : Nat) (hk : k < 3)
    (hR : Rest r s) : Rest r (sockBody inp k s) := by
  have h1 := rest_readPart inp k r s hR
  unfold sockBody
  simp only []
  split_ifs
  · exact ⟨clr8_lt _ _ h1.1, clr8_lt _ _ h1.2.1, h1.2.2⟩
  · exact ⟨set8_lt _ _ h1.1 hk, h1.2.1, h1.2.2⟩
  · exact h1

theorem rest_statusBody (rx : Nat → Nat) (r : Nat) (s : State) (k : Nat) (_hk : k < 3)
    (hR : Rest r s) : Rest r (statusBody rx k s) := by
  unfold statusBody
  simp only []
  split_ifs
  · exact hR
  · exact hR
  · exact ⟨clr8_lt _ _ hR.1, clr8_lt _ _ hR.2.1, hR.2.2⟩

theorem rest_deliverBody (rx : Nat → Nat) (r : Nat) (s : State) (k : Nat) (_hk : k < 3)
    (hR : Rest r s) : Rest r (deliverBody rx k s) := by
  unfold deliverBody
  simp only []
  split_ifs
  · exact ⟨clr8_lt _ _ hR.1, hR.2.1, hR.2.2⟩
  · exact hR

theorem rest_descBody (rx : Nat → Nat) (r : Nat) (st : State × List Desc) (k : Nat)
    (hR : Rest r st.1) : Rest r (descBody rx k st).1 := by
  unfold descBody
  simp only []
  split_ifs <;> exact hR

theorem rest_xferDesc (inp : Input) (r : Nat) (s : State) (d : Desc) (hR : Rest r s) :
    Rest r (xferDesc inp s d) := by
  rcases d with ⟨t, x, l⟩
  cases t <;> cases x <;> exact hR

theorem rest_xferLoop (inp : Input) (r : Nat) (descs : List Desc) (s : State) (hR : Rest r s) :
    Rest r (descs.foldl (xferDesc inp) s) := by
  induction descs generalizing s with
  | nil => exact hR
  | cons d ds ih => exact ih _ (rest_xferDesc inp r s d hR)

/-! ## Phases -/

theorem socketPhase_ok (s sA : State) (inp : Input) (h : socketPhase s inp = .ok sA) :
    ∃ s1, acceptLoop inp (pollFds inp s) = .ok s1 ∧ sA = sockLoop inp s1 := by
  unfold socketPhase at h
  simp only [] at h
  split_ifs at h
  cases h1 : acceptLoop inp (pollFds inp s) with
  | error e => simp [h1] at h
  | ok s1 =>
    simp only [h1, Except.ok.injEq] at h
    exact ⟨s1, rfl, h.symm⟩

theorem headerPhase_valid (inp : Input) (s : State) (hv : rx_buf inp 0 = 0xCA)
    (hh : 0 ≤ inp.hdr_status) (hs : 0 ≤ inp.sync_high_ret) :
    headerPhase inp s = dataPhase inp (rx_buf inp) (afterStatus inp s) := by
  have h1 : ¬ inp.hdr_status < 0 := by omega
  have h2 : ¬ inp.sync_high_ret < 0 := by omega
  have h3 : ¬ rx_buf inp 0 ≠ 0xCA := fun h => h hv
  simp only [headerPhase, if_neg h1, if_neg h2, if_neg h3]
  rfl

theorem headerPhase_ok (inp : Input) (s s1 : State) (h : headerPhase inp s = .ok s1) :
    0 ≤ inp.hdr_status ∧ 0 ≤ inp.sync_high_ret ∧
      ((rx_buf inp 0 ≠ 0xCA ∧ s.retries + 1 ≤ 15 ∧
          s1 = (s.emit (headerEv inp s)).setRetries (s.retries + 1)) ∨
        (rx_buf inp 0 = 0xCA ∧ dataPhase inp (rx_buf inp) (afterStatus inp s) = .ok s1)) := by
  by_cases h1 : inp.hdr_status < 0
  · simp [headerPhase, h1] at h
  by_cases h2 : inp.sync_high_ret < 0
  · simp [headerPhase, h1, h2] at h
  refine ⟨by omega, by omega, ?_⟩
  by_cases h3 : rx_buf inp 0 = 0xCA
  · right
    rw [headerPhase_valid inp s h3 (by omega) (by omega)] at h
    exact ⟨h3, h⟩
  · left
    have h3n : rx_buf inp 0 ≠ 0xCA := h3
    simp only [headerPhase, if_neg h1, if_neg h2, if_pos h3n] at h
    by_cases h4 : ((s.emit (headerEv inp s)).setRetries ((s.emit (headerEv inp s)).retries + 1)).retries > 15
    · rw [headerEv] at h4
      simp only [if_pos h4] at h
      cases h
    · rw [headerEv] at h4
      simp only [if_neg h4, Except.ok.injEq] at h
      refine ⟨h3, ?_, h.symm⟩
      have : ((s.emit (headerEv inp s)).setRetries ((s.emit (headerEv inp s)).retries + 1)).retries
          = s.retries + 1 := rfl
      rw [headerEv] at this
      omega

theorem dataPhase_ok (inp : Input) (rx : Nat → Nat) (s s1 : State)
    (h : dataPhase inp rx s = .ok s1) :
    ((descLoop rx s).2 = [] ∧ s1 = (descLoop rx s).1) ∨
      ((descLoop rx s).2 ≠ [] ∧ 0 ≤ inp.data_status ∧
        s1 = deliverLoop rx ((descLoop rx s).2.foldl (xferDesc inp)
          ((descLoop rx s).1.emit (Ev.xfer (descLoop rx s).2)))) := by
  unfold dataPhase at h
  simp only [] at h
  by_cases h1 : (descLoop rx s).2.length ≠ 0
  · rw [if_pos h1] at h
    by_cases h2 : inp.data_status < 0
    · rw [if_pos h2] at h; cases h
    · rw [if_neg h2] at h
      right
      refine ⟨?_, by omega, ?_⟩
      · intro e; rw [e] at h1; exact h1 rfl
      · injection h with h; exact h.symm
  · rw [if_neg h1] at h
    left
    refine ⟨?_, ?_⟩
    · exact List.length_eq_zero.mp (not_not.mp h1)
    · injection h with h; exact h.symm

/-- Descriptors of channel `j` as the loop body appends them. -/
theorem chanDescs_eq (rx : Nat → Nat) (s : State) (j : Nat) :
    txDesc rx j (view j s) ++ rxDesc rx j (view j s) =
      (if (rx 1).testBit j = true ∧ 0 < (s.channels j).out_length then
        [{ tx_buf := some j, rx_buf := none, len := (s.channels j).out_length }]
       else []) ++
      (if s.writable.testBit j = true ∧ 0 < rx (2 + j) then
        [{ tx_buf := none, rx_buf := some j, len := rx (2 + j) }]
       else []) := by
  simp only [txDesc, rxDesc, view, and_shift_ne_zero, gt_iff_lt]

theorem descLoop_snd (rx : Nat → Nat) (s : State) :
    (descLoop rx s).2 =
      (txDesc rx 0 (view 0 s) ++ rxDesc rx 0 (view 0 s)) ++
      ((txDesc rx 1 (view 1 s) ++ rxDesc rx 1 (view 1 s)) ++
       (txDesc rx 2 (view 2 s) ++ rxDesc rx 2 (view 2 s))) := by
  unfold descLoop
  rw [range3]
  simp only [List.foldl]
  have v1 : view 1 (descBody rx 0 (s, [])).1 = view 1 s := by
    rw [view_descBody rx _ 1 0 (by omega)]; simp
  have v2 : view 2 (descBody rx 1 (descBody rx 0 (s, []))).1 = view 2 s := by
    rw [view_descBody rx _ 2 1 (by omega), view_descBody rx _ 2 0 (by omega)]; simp
  rw [descBody_snd, descBody_snd, descBody_snd, v1, v2]
  simp

theorem descLoop_refDescs (rx : Nat → Nat) (s : State) : (descLoop rx s).2 = refDescs rx s := by
  rw [descLoop_snd, chanDescs_eq, chanDescs_eq, chanDescs_eq]
  unfold refDescs
  rw [range3]
  simp [List.flatMap]

theorem view_descLoop (rx : Nat → Nat) (s : State) (j : Nat) (hj : j < 3) :
    view j (descLoop rx s).1 = descV rx j (view j s) := by
  unfold descLoop
  rw [range3]
  simp only [List.foldl]
  rw [view_descBody rx _ j 2 (by omega), view_descBody rx _ j 1 (by omega),
    view_descBody rx _ j 0 (by omega)]
  interval_cases j <;> simp

theorem log_descLoop (rx : Nat → Nat) (s : State) : (descLoop rx s).1.log = s.log := by
  unfold descLoop
  rw [range3]
  simp only [List.foldl]
  rw [log_descBody, log_descBody, log_descBody]

theorem rest_descLoop (rx : Nat → Nat) (r : Nat) (s : State) (hR : Rest r s) :
    Rest r (descLoop rx s).1 := by
  unfold descLoop
  rw [range3]
  simp only [List.foldl]
  exact rest_descBody _ _ _ _ (rest_descBody _ _ _ _ (rest_descBody _ _ _ _ hR))

theorem txPayloads_append (j : Nat) (buf : List Nat) (a b : List Desc) :
    txPayloads j buf (a ++ b) = txPayloads j buf a ++ txPayloads j buf b := by
  simp [txPayloads, List.filterMap_append]

theorem txPayloads_rxDesc (rx : Nat → Nat) (j k : Nat) (buf : List Nat) (v : View) :
    txPayloads j buf (rxDesc rx k v) = [] := by
  unfold rxDesc txPayloads
  split_ifs <;> simp

theorem txPayloads_txDesc_ne (rx : Nat → Nat) (j k : Nat) (hjk : k ≠ j) (buf : List Nat)
    (v : View) : txPayloads j buf (txDesc rx k v) = [] := by
  unfold txDesc txPayloads
  split_ifs <;> simp [hjk]

theorem txPayloads_descLoop (rx : Nat → Nat) (s : State) (j : Nat) (hj : j < 3)
    (buf : List Nat) :
    txPayloads j buf (descLoop rx s).2 = txPayloads j buf (txDesc rx j (view j s)) := by
  rw [descLoop_snd]
  simp only [txPayloads_append, txPayloads_rxDesc, List.append_nil]
  interval_cases j
  · rw [txPayloads_txDesc_ne rx 0 1 (by omega), txPayloads_txDesc_ne rx 0 2 (by omega)]; simp
  · rw [txPayloads_txDesc_ne rx 1 0 (by omega), txPayloads_txDesc_ne rx 1 2 (by omega)]; simp
  · rw [txPayloads_txDesc_ne rx 2 0 (by omega), txPayloads_txDesc_ne rx 2 1 (by omega)]; simp

theorem descV_of_nil (rx : Nat → Nat) (s : State) (h : (descLoop rx s).2 = []) (j : Nat)
    (hj : j < 3) : descV rx j (view j s) = view j s := by
  rw [descLoop_snd] at h
  simp only [List.append_eq_nil] at h
  have ht : txDesc rx j (view j s) = [] := by
    interval_cases j
    · exact h.1.1
    · exact h.2.1.1
    · exact h.2.2.1
  unfold txDesc at ht
  unfold descV
  split_ifs with hc
  · rw [if_pos hc] at ht; cases ht
  · rfl

/-! ## The invariant is kept by every cycle -/

theorem logok_of_grows {s s1 : State} (h : ∀ e ∈ s.log, goodEv e) (g : Grows s s1) :
    ∀ e ∈ s1.log, goodEv e := by
  obtain ⟨l, el, ql⟩ := g
  intro e he
  rw [el] at he
  rcases List.mem_append.mp he with h1 | h1
  · exact h e h1
  · exact (ql e h1).1

theorem xfers_of_grows {s s1 : State} (g : Grows s s1) : xfers s1.log = xfers s.log := by
  obtain ⟨l, el, ql⟩ := g
  rw [el]
  unfold xfers
  rw [List.filterMap_append]
  have : List.filterMap (fun e => match e with
      | Ev.xfer d => some d
      | _ => none) l = [] := by
    rw [List.filterMap_eq_nil_iff]
    intro e he
    have hq := (ql e he).2
    cases e <;> first | rfl | exact absurd rfl (hq _)
  rw [this, List.append_nil]

theorem view_emit_header (inp : Input) (s u : State) (j : Nat) :
    view j (s.emit (headerEv inp u)) = view j s := by
  rw [view_emit]
  simp [headerEv, chanEv]

theorem view_emit_xfer (s : State) (d : List Desc) (j : Nat) :
    view j (s.emit (Ev.xfer d)) = view j s := by
  rw [view_emit]
  simp [chanEv]

theorem polled_of_model (s : State) (inp : Input) (hP : PollModel s inp) (j : Nat)
    (hj : j < 3) :
    ConnPolled (pollV inp j (view j s)) ∧ SockPolled (pollV inp j (view j s)) := by
  have h1 : CONN_POLL j < N_POLLFDS := by simp only [CONN_POLL, N_POLLFDS, N_CHANNEL]; omega
  have h2 : SOCK_POLL j < N_POLLFDS := by simp only [SOCK_POLL, N_POLLFDS, N_CHANNEL]; omega
  exact ⟨⟨(hP _ h1).1, (hP _ h1).2⟩, (hP _ h2).2⟩

theorem grows_acceptLoop (inp : Input) (s s1 : State) (h : acceptLoop inp s = .ok s1)
    (hpre : ∀ k, k < 3 → (view k s).sock.revents &&& POLLIN ≠ 0 → (view k s).conn.fd = -1) :
    Grows s s1 := by
  obtain ⟨a, b, h0, h1, h2⟩ := acceptLoop_ok inp s s1 h
  have g0 := grows_acceptBody inp 0 s a (hpre 0 (by omega)) h0
  have v1 : view 1 a = view 1 s := by
    have := view_acceptBody inp s a 1 0 (by omega) (by omega) h0
    simpa using this
  have g1 := grows_acceptBody inp 1 a b (by rw [v1]; exact hpre 1 (by omega)) h1
  have v2 : view 2 b = view 2 s := by
    have e1 := view_acceptBody inp s a 2 0 (by omega) (by omega) h0
    have e2 := view_acceptBody inp a b 2 1 (by omega) (by omega) h1
    simp at e1 e2
    rw [e2, e1]
  have g2 := grows_acceptBody inp 2 b s1 (by rw [v2]; exact hpre 2 (by omega)) h2
  exact (g0.trans g1).trans g2

theorem rest_acceptLoop (inp : Input) (r : Nat) (s s1 : State) (hR : Rest r s)
    (h : acceptLoop inp s = .ok s1) : Rest r s1 := by
  obtain ⟨a, b, h0, h1, h2⟩ := acceptLoop_ok inp s s1 h
  exact rest_acceptBody inp 2 (by omega) r b s1
    (rest_acceptBody inp 1 (by omega) r a b (rest_acceptBody inp 0 (by omega) r s a hR h0) h1) h2

theorem inv_mk (s : State) (r : Nat) (hR : Rest r s) (hr : r ≤ 15)
    (hl : ∀ e ∈ s.log, goodEv e)
    (hv : ∀ j, j < 3 → VInv (view j s) ∧ TraceOK (view j s)) : Inv s :=
  ⟨hR.1, hR.2.1, by rw [hR.2.2]; exact hr, hl, fun j hj => (hv j hj).1, fun j hj => (hv j hj).2⟩

theorem Inv.rest {s : State} (h : Inv s) : Rest s.retries s := ⟨h.wlt, h.olt, rfl⟩

theorem inv_socketPhase (s sA : State) (inp : Input) (hI : Inv s) (hP : PollModel s inp)
    (h : socketPhase s inp = .ok sA) : Inv sA ∧ Grows s sA ∧ sA.retries = s.retries := by
  obtain ⟨s1, ha, rfl⟩ := socketPhase_ok s sA inp h
  -- after poll
  have hv0 : ∀ j, j < 3 → VInv (view j (pollFds inp s)) ∧ TraceOK (view j (pollFds inp s)) ∧
      ConnPolled (view j (pollFds inp s)) ∧ SockPolled (view j (pollFds inp s)) := by
    intro j hj
    rw [view_pollFds inp s j hj]
    exact ⟨vinv_pollV inp j _ (hI.chan j hj), hI.trace j hj, polled_of_model s inp hP j hj⟩
  -- after the accept loop
  have hv1 : ∀ j, j < 3 → VInv (view j s1) ∧ TraceOK (view j s1) ∧ ConnPolled (view j s1) := by
    intro j hj
    obtain ⟨i0, t0, c0, p0⟩ := hv0 j hj
    obtain ⟨i1, c1, e1, q1⟩ := vinv_acceptV inp j _ _ i0 p0 c0 (view_acceptLoop inp _ _ ha j hj)
    refine ⟨i1, ?_, c1⟩
    unfold TraceOK at t0 ⊢
    rw [e1, q1]; exact t0
  have g0 : Grows s (pollFds inp s) := Grows.of_log_eq rfl
  have g1 : Grows (pollFds inp s) s1 :=
    grows_acceptLoop inp _ _ ha (fun k hk hp =>
      accept_free _ (hv0 k hk).1 (hv0 k hk).2.2.2 hp)
  have g2 : Grows s1 (sockLoop inp s1) :=
    loop_grows (sockBody inp) (sockV inp) (view_sockBody inp) (fun _ => True)
      (fun s k _ _ => grows_sockBody inp k s) s1 (fun _ _ => trivial)
  have r0 : Rest s.retries (pollFds inp s) := hI.rest
  have r1 := rest_acceptLoop inp _ _ _ r0 ha
  have r2 : Rest s.retries (sockLoop inp s1) :=
    loop_inv (sockBody inp) (Rest s.retries) (fun s k hk h => rest_sockBody inp _ s k hk h) s1 r1
  have g := (g0.trans g1).trans g2
  refine ⟨inv_mk _ _ r2 hI.rlt (logok_of_grows hI.logok g) ?_, g, r2.2.2⟩
  intro j hj
  obtain ⟨i1, t1, c1⟩ := hv1 j hj
  have e : view j (sockLoop inp s1) = sockV inp j (view j s1) :=
    view_loop (sockBody inp) (sockV inp) (view_sockBody inp) s1 j hj
  rw [e]
  exact vinv_sockV inp j _ i1 c1 t1

theorem view_afterStatus (inp : Input) (s : State) (j : Nat) (hj : j < 3) :
    view j (afterStatus inp s) = statusV (rx_buf inp) j (view j s) := by
  unfold afterStatus
  rw [view_setRetries]
  have e := view_loop (statusBody (rx_buf inp)) (statusV (rx_buf inp))
    (view_statusBody (rx_buf inp)) (s.emit (headerEv inp s)) j hj
  unfold statusLoop
  rw [e, view_emit_header]

theorem grows_afterStatus (inp : Input) (s : State) : Grows s (afterStatus inp s) := by
  have g0 : Grows s (s.emit (headerEv inp s)) :=
    Grows.emit _ _ ⟨trivial, fun d h => by simp [headerEv] at h⟩
  have g1 : Grows (s.emit (headerEv inp s)) (statusLoop (rx_buf inp) (s.emit (headerEv inp s))) :=
    loop_grows (statusBody (rx_buf inp)) (statusV (rx_buf inp)) (view_statusBody (rx_buf inp))
      (fun _ => True) (fun s k _ _ => grows_statusBody _ k s) _ (fun _ _ => trivial)
  exact (g0.trans g1).trans (Grows.of_log_eq rfl)

theorem inv_afterStatus (inp : Input) (s : State) (hI : Inv s) : Inv (afterStatus inp s) := by
  have r1 : Rest s.retries (statusLoop (rx_buf inp) (s.emit (headerEv inp s))) :=
    loop_inv (statusBody (rx_buf inp)) (Rest s.retries)
      (fun s k hk h => rest_statusBody _ _ s k hk h) _ hI.rest
  have r2 : Rest 0 (afterStatus inp s) := ⟨r1.1, r1.2.1, rfl⟩
  refine inv_mk _ 0 r2 (by omega) (logok_of_grows hI.logok (grows_afterStatus inp s)) ?_
  intro j hj
  rw [view_afterStatus inp s j hj]
  exact vinv_statusV _ j hj _ (hI.chan j hj) (hI.trace j hj)

theorem xferV_nil (j : Nat) (v : View) : xferV j [] v = v := by
  simp [xferV, txPayloads]

theorem deliverV_of_nil (rx : Nat → Nat) (s : State) (h : (descLoop rx s).2 = []) (j : Nat)
    (hj : j < 3) : deliverV rx j (view j s) = view j s := by
  rw [descLoop_snd] at h
  simp only [List.append_eq_nil] at h
  have ht : rxDesc rx j (view j s) = [] := by
    interval_cases j
    · exact h.1.2
    · exact h.2.1.2
    · exact h.2.2.2
  unfold rxDesc at ht
  unfold deliverV
  split_ifs with hc
  · rw [if_pos hc] at ht; cases ht
  · rfl

theorem view_dataPhase (inp : Input) (rx : Nat → Nat) (s s1 : State)
    (h : dataPhase inp rx s = .ok s1) (j : Nat) (hj : j < 3) :
    view j s1 = deliverV rx j (xferV j (descLoop rx s).2 (descV rx j (view j s))) := by
  rcases dataPhase_ok inp rx s s1 h with ⟨hn, rfl⟩ | ⟨_, _, rfl⟩
  · rw [hn, xferV_nil, descV_of_nil rx s hn j hj, deliverV_of_nil rx s hn j hj,
      view_descLoop rx s j hj, descV_of_nil rx s hn j hj]
  · have e := view_loop (deliverBody rx) (deliverV rx) (view_deliverBody rx)
      ((descLoop rx s).2.foldl (xferDesc inp) ((descLoop rx s).1.emit (Ev.xfer (descLoop rx s).2)))
      j hj
    unfold deliverLoop
    rw [e, view_xferLoop, view_emit_xfer, view_descLoop rx s j hj]

theorem inv_dataPhase (inp : Input) (rx : Nat → Nat) (s s1 : State) (hI : Inv s)
    (h : dataPhase inp rx s = .ok s1) :
    Inv s1 ∧ s1.retries = s.retries ∧
      xfers s1.log = xfers s.log ++
        (if (descLoop rx s).2 = [] then [] else [(descLoop rx s).2]) := by
  have hx : ∀ j, j < 3 →
      VInv (xferV j (descLoop rx s).2 (descV rx j (view j s))) ∧
      TraceOK (xferV j (descLoop rx s).2 (descV rx j (view j s))) := fun j hj =>
    vinv_xferV rx j _ _ (hI.chan j hj) (hI.trace j hj) (txPayloads_descLoop rx s j hj _)
  have hv : ∀ j, j < 3 → VInv (view j s1) ∧ TraceOK (view j s1) := by
    intro j hj
    rw [view_dataPhase inp rx s s1 h j hj]
    exact vinv_deliverV rx j _ (hx j hj).1 (hx j hj).2
  rcases dataPhase_ok inp rx s s1 h with ⟨hn, e1⟩ | ⟨hn, _, e1⟩
  · have hl : s1.log = s.log := by rw [e1, log_descLoop]
    have hr : Rest s.retries s1 := by rw [e1]; exact rest_descLoop rx _ s hI.rest
    refine ⟨inv_mk s1 _ hr hI.rlt (by rw [hl]; exact hI.logok) hv, hr.2.2, ?_⟩
    rw [hl, if_pos hn, List.append_nil]
  · have r0 : Rest s.retries ((descLoop rx s).1.emit (Ev.xfer (descLoop rx s).2)) :=
      rest_descLoop rx _ s hI.rest
    have r1 := rest_xferLoop inp _ (descLoop rx s).2 _ r0
    have r2 : Rest s.retries s1 := by
      rw [e1]
      exact loop_inv (deliverBody rx) (Rest s.retries)
        (fun s k hk h => rest_deliverBody rx _ s k hk h) _ r1
    have g1 := grows_xferLoop inp (descLoop rx s).2
      ((descLoop rx s).1.emit (Ev.xfer (descLoop rx s).2))
    have g2 : Grows ((descLoop rx s).2.foldl (xferDesc inp)
        ((descLoop rx s).1.emit (Ev.xfer (descLoop rx s).2))) s1 := by
      rw [e1]
      refine loop_grows (deliverBody rx) (deliverV rx) (view_deliverBody rx)
        (fun v => v.wbit = true → v.conn.fd ≠ -1)
        (fun s k _ hp => grows_deliverBody rx k s hp) _ ?_
      intro k hk
      rw [view_xferLoop, view_emit_xfer, view_descLoop rx s k hk]
      intro hw
      exact (hx k hk).1.opened.mp ((hx k hk).1.wopen hw)
    have g := g1.trans g2
    have hl0 : ((descLoop rx s).1.emit (Ev.xfer (descLoop rx s).2)).log =
        s.log ++ [Ev.xfer (descLoop rx s).2] := by
      simp only [State.emit, log_descLoop]
    have hgood : ∀ e ∈ ((descLoop rx s).1.emit (Ev.xfer (descLoop rx s).2)).log, goodEv e := by
      intro e he
      rw [hl0] at he
      rcases List.mem_append.mp he with h1 | h1
      · exact hI.logok e h1
      · simp only [List.mem_singleton] at h1
        subst h1
        trivial
    refine ⟨inv_mk s1 _ r2 hI.rlt (logok_of_grows hgood g) hv, r2.2.2, ?_⟩
    rw [xfers_of_grows g, hl0, if_neg hn]
    simp [xfers, List.filterMap_append]

theorem inv_headerPhase (inp : Input) (s s1 : State) (hI : Inv s)
    (h : headerPhase inp s = .ok s1) : Inv s1 := by
  obtain ⟨_, _, hc⟩ := headerPhase_ok inp s s1 h
  rcases hc with ⟨_, hr, rfl⟩ | ⟨_, hd⟩
  · have g : Grows s ((s.emit (headerEv inp s)).setRetries (s.retries + 1)) :=
      (Grows.emit s (headerEv inp s) ⟨trivial, fun d h => by simp [headerEv] at h⟩).trans
        (Grows.of_log_eq rfl)
    refine inv_mk _ (s.retries + 1) ⟨hI.wlt, hI.olt, rfl⟩ hr (logok_of_grows hI.logok g) ?_
    intro j hj
    rw [view_setRetries, view_emit_header]
    exact ⟨hI.chan j hj, hI.trace j hj⟩
  · exact (inv_dataPhase inp _ _ _ (inv_afterStatus inp s hI) hd).1

theorem cycle_ok (s s1 : State) (inp : Input) (h : cycle s inp = .ok s1) :
    ∃ sA, socketPhase s inp = .ok sA ∧ headerPhase inp sA = .ok s1 := by
  unfold cycle at h
  cases h1 : socketPhase s inp with
  | error e => simp [h1] at h
  | ok sA =>
    simp only [h1] at h
    exact ⟨sA, rfl, h⟩

theorem inv_cycle (s s1 : State) (inp : Input) (hI : Inv s) (hP : PollModel s inp)
    (h : cycle s inp = .ok s1) : Inv s1 := by
  obtain ⟨sA, h1, h2⟩ := cycle_ok s s1 inp h
  exact inv_headerPhase inp sA s1 (inv_socketPhase s sA inp hI hP h1).1 h2

theorem inv_init (irq_fd : Int) (sock_fd : Nat → Int) : Inv (init irq_fd sock_fd) := by
  refine inv_mk _ 0 ⟨by show 0 < 8; decide, by show 0 < 8; decide, rfl⟩ (by omega)
    (by intro e he; cases he) ?_
  intro j hj
  have h1 : view j (init irq_fd sock_fd) =
      { conn := { fd := -1, events := 0, revents := 0 }
        sock := { fd := sock_fd j, events := POLLIN, revents := 0 }
        out_buf := List.replicate BUFSIZE 0
        out_length := 0
        status := 0
        wbit := false
        obit := false
        trace := [] } := by
    interval_cases j <;> simp [view, init, CONN_POLL, SOCK_POLL, GPIO_POLL, N_CHANNEL, N_POLLFDS,
      chanEvs]
  rw [h1]
  refine ⟨⟨?_, ?_, ?_, ?_, ?_, ?_⟩, ?_⟩
  · intro h; exact absurd rfl h
  · exact Nat.zero_le _
  · intro h; exact absurd h (Nat.lt_irrefl 0)
  · simp
  · intro h; cases h
  · intro h; exact absurd rfl h
  · rfl

theorem inv_reachable (s : State) (h : Reachable s) : Inv s := by
  induction h with
  | start irq_fd sock_fd => exact inv_init irq_fd sock_fd
  | next inp _ hP hc ih => exact inv_cycle _ _ inp ih hP hc

/-! ## Scenario checks -/

theorem cycle_after (s : State) (inp : Input) (h : (cycle s inp).isOk = true) :
    cycle s inp = .ok (after s inp) := by
  unfold after
  cases hc : cycle s inp with
  | error e => rw [hc] at h; cases h
  | ok a => rfl

theorem socketPhase_headerState (s : State) (inp : Input)
    (h : (socketPhase s inp).isOk = true) :
    socketPhase s inp = .ok (headerState s inp) := by
  unfold headerState
  cases hc : socketPhase s inp with
  | error e => rw [hc] at h; cases h
  | ok a => rfl

theorem connected_reachable : Reachable connected :=
  Reachable.next (connectInput [0xCA, 0, 0, 0, 0]) (Reachable.start 3 (fun i => 4 + i))
    (by decide) (cycle_after _ _ (by decide))

theorem view_socketPhase (s sA : State) (inp : Input) (h : socketPhase s inp = .ok sA)
    (j : Nat) (hj : j < 3) :
    ∃ v1, acceptV inp j (pollV inp j (view j s)) = .ok v1 ∧ view j sA = sockV inp j v1 := by
  obtain ⟨s1, ha, rfl⟩ := socketPhase_ok s sA inp h
  refine ⟨view j s1, ?_, ?_⟩
  · rw [← view_pollFds inp s j hj]
    exact view_acceptLoop inp _ _ ha j hj
  · exact view_loop (sockBody inp) (sockV inp) (view_sockBody inp) s1 j hj

theorem dataPhase_nil (inp : Input) (rx : Nat → Nat) (s : State) (h : (descLoop rx s).2 = []) :
    dataPhase inp rx s = .ok (descLoop rx s).1 := by
  simp [dataPhase, h]

theorem dataPhase_fail (inp : Input) (rx : Nat → Nat) (s : State) (h : (descLoop rx s).2 ≠ [])
    (hd : inp.data_status < 0) : dataPhase inp rx s = .error Fatal.spi_data := by
  have h1 : (descLoop rx s).2.length ≠ 0 := fun e => h (List.length_eq_zero.mp e)
  simp only [dataPhase, if_pos h1, if_pos hd]

theorem dataPhase_run (inp : Input) (rx : Nat → Nat) (s : State) (h : (descLoop rx s).2 ≠ [])
    (hd : 0 ≤ inp.data_status) : ∃ s1, dataPhase inp rx s = .ok s1 := by
  have h1 : (descLoop rx s).2.length ≠ 0 := fun e => h (List.length_eq_zero.mp e)
  have h2 : ¬ inp.data_status < 0 := by omega
  simp only [dataPhase, if_pos h1, if_neg h2]
  exact ⟨_, rfl⟩

theorem cycle_valid (s sA : State) (inp : Input) (hs : socketPhase s inp = .ok sA)
    (hh : 0 ≤ inp.hdr_status) (hy : 0 ≤ inp.sync_high_ret) (hv : rx_buf inp 0 = 0xCA) :
    cycle s inp = dataPhase inp (rx_buf inp) (afterStatus inp sA) := by
  unfold cycle
  simp only [hs]
  exact headerPhase_valid inp sA hv hh hy

theorem chanDescs_length (rx : Nat → Nat) (j : Nat) (v : View) :
    (txDesc rx j v ++ rxDesc rx j v).length ≤ 2 := by
  unfold txDesc rxDesc
  split_ifs <;> simp

theorem chanDescs_len (rx : Nat → Nat) (j : Nat) (v : View) (hb : v.out_length ≤ 255)
    (hrx : rx (2 + j) ≤ 255) :
    ∀ d ∈ txDesc rx j v ++ rxDesc rx j v, 0 < d.len ∧ d.len ≤ 255 := by
  intro d hd
  rcases List.mem_append.mp hd with h | h
  · unfold txDesc at h
    split_ifs at h with hc
    · simp only [List.mem_singleton] at h
      subst h
      exact ⟨hc.2, hb⟩
    · cases h
  · unfold rxDesc at h
    split_ifs at h with hc
    · simp only [List.mem_singleton] at h
      subst h
      exact ⟨hc.2, hrx⟩
    · cases h

theorem rx_buf_le (inp : Input) (k : Nat) : rx_buf inp k ≤ 255 := by
  unfold rx_buf; omega

/-! ## C1: the data descriptor list -/

/-- C1. In a cycle with a valid header reply, started in a reachable state, the
descriptor list built for the data transfer equals the reference construction
over the state left by the enable-delta step; the data ioctl is issued, with
exactly this list, iff the list is non-empty (an empty list ends the cycle
without a data ioctl, a non-empty one makes the cycle depend on the ioctl
status and logs the ioctl); the list has at most 6 descriptors, each of
length 1..255. -/
theorem data_descriptors_match_reference (s sA : State) (inp : Input)
    (hr : Reachable s) (hp : PollModel s inp) (hs : socketPhase s inp = .ok sA)
    (hh : 0 ≤ inp.hdr_status) (hy : 0 ≤ inp.sync_high_ret) (hv : rx_buf inp 0 = 0xCA) :
    dataDescs inp sA = refDescs (rx_buf inp) (afterStatus inp sA) ∧
    (dataDescs inp sA = [] →
      ∃ s1, cycle s inp = .ok s1 ∧ xfers s1.log = xfers s.log) ∧
    (dataDescs inp sA ≠ [] →
      (inp.data_status < 0 → cycle s inp = .error Fatal.spi_data) ∧
      (0 ≤ inp.data_status →
        ∃ s1, cycle s inp = .ok s1 ∧ xfers s1.log = xfers s.log ++ [dataDescs inp sA])) ∧
    (dataDescs inp sA).length ≤ 6 ∧
    ∀ d ∈ dataDescs inp sA, 0 < d.len ∧ d.len ≤ 255 := by
  have hI := inv_reachable s hr
  obtain ⟨hIA, gA, _⟩ := inv_socketPhase s sA inp hI hp hs
  have hID := inv_afterStatus inp sA hIA
  have hx : xfers (afterStatus inp sA).log = xfers s.log := by
    rw [xfers_of_grows (grows_afterStatus inp sA), xfers_of_grows gA]
  have hc := cycle_valid s sA inp hs hh hy hv
  refine ⟨descLoop_refDescs _ _, ?_, ?_, ?_, ?_⟩
  · intro hn
    have hd := dataPhase_nil inp (rx_buf inp) (afterStatus inp sA) hn
    refine ⟨_, hc.trans hd, ?_⟩
    have := (inv_dataPhase inp _ _ _ hID hd).2.2
    rw [this, hx]
    unfold dataDescs at hn
    rw [if_pos hn, List.append_nil]
  · intro hn
    refine ⟨fun hd => hc.trans (dataPhase_fail inp _ _ hn hd), ?_⟩
    intro hd
    obtain ⟨s1, h1⟩ := dataPhase_run inp (rx_buf inp) (afterStatus inp sA) hn hd
    refine ⟨s1, hc.trans h1, ?_⟩
    have := (inv_dataPhase inp _ _ _ hID h1).2.2
    rw [this, hx]
    unfold dataDescs at hn
    rw [if_neg hn]
    rfl
  · unfold dataDescs
    rw [descLoop_snd]
    have h0 := chanDescs_length (rx_buf inp) 0 (view 0 (afterStatus inp sA))
    have h1 := chanDescs_length (rx_buf inp) 1 (view 1 (afterStatus inp sA))
    have h2 := chanDescs_length (rx_buf inp) 2 (view 2 (afterStatus inp sA))
    simp only [List.length_append] at h0 h1 h2 ⊢
    omega
  · unfold dataDescs
    rw [descLoop_snd]
    intro d hd
    have hb : ∀ j, j < 3 → (view j (afterStatus inp sA)).out_length ≤ 255 :=
      fun j hj => (hID.chan j hj).bound
    rcases List.mem_append.mp hd with h | h
    · exact chanDescs_len _ 0 _ (hb 0 (by omega)) (rx_buf_le _ _) d h
    · rcases List.mem_append.mp h with h | h
      · exact chanDescs_len _ 1 _ (hb 1 (by omega)) (rx_buf_le _ _) d h
      · exact chanDescs_len _ 2 _ (hb 2 (by omega)) (rx_buf_le _ _) d h

/-- Witness for C1: the cold-start cycle with reply `CA 00 00 00 00` issues no
data ioctl, and the cycle in which channel 0 holds `"abc"` and the peer replies
`CA 01 00 00 00` builds exactly one tx-only descriptor of length 3. -/
theorem data_descriptors_witness :
    (PollModel coldStart (idleInput [0xCA, 0, 0, 0, 0]) ∧
      dataDescs (idleInput [0xCA, 0, 0, 0, 0])
        (headerState coldStart (idleInput [0xCA, 0, 0, 0, 0])) = [] ∧
      xfers (after coldStart (idleInput [0xCA, 0, 0, 0, 0])).log = []) ∧
    (PollModel connected (abcInput [0xCA, 1, 0, 0, 0]) ∧
      dataDescs (abcInput [0xCA, 1, 0, 0, 0])
        (headerState connected (abcInput [0xCA, 1, 0, 0, 0])) = [⟨some 0, none, 3⟩] ∧
      dataDescs (abcInput [0xCA, 1, 0, 0, 0])
        (headerState connected (abcInput [0xCA, 1, 0, 0, 0])) =
        refDescs (rx_buf (abcInput [0xCA, 1, 0, 0, 0]))
          (afterStatus (abcInput [0xCA, 1, 0, 0, 0])
            (headerState connected (abcInput [0xCA, 1, 0, 0, 0])))) :=
  ⟨⟨by decide, by decide, by decide⟩, by decide, by decide,
    (data_descriptors_match_reference connected _ (abcInput [0xCA, 1, 0, 0, 0])
      connected_reachable (by decide) (socketPhase_headerState _ _ (by decide))
      (by decide) (by decide) (by decide)).1⟩

/-! ## C2: the header the host transmits -/

theorem flag_byte (w o : Nat) (hw : w < 8) (ho : o < 8) :
    ((w ||| (o <<< 4)) % 256) % 16 = w ∧ ((w ||| (o <<< 4)) % 256) / 16 = o ∧
    (∀ i, i < N_CHANNEL →
      ((w ||| (o <<< 4)) % 256).testBit i = w.testBit i ∧
      ((w ||| (o <<< 4)) % 256).testBit (4 + i) = o.testBit i) ∧
    ((w ||| (o <<< 4)) % 256).testBit 3 = false ∧
    ((w ||| (o <<< 4)) % 256).testBit 7 = false := by
  interval_cases w <;> interval_cases o <;> decide

theorem tx_buf_inv (s : State) (hI : Inv s) :
    tx_buf s = [0x53, (s.writable ||| (s.channels_open <<< 4)) % 256, (s.channels 0).out_length,
      (s.channels 1).out_length, (s.channels 2).out_length] := by
  have h0 := (hI.chan 0 (by decide)).bound
  have h1 := (hI.chan 1 (by decide)).bound
  have h2 := (hI.chan 2 (by decide)).bound
  have e0 : (s.channels 0).out_length ≤ 255 := h0
  have e1 : (s.channels 1).out_length ≤ 255 := h1
  have e2 : (s.channels 2).out_length ≤ 255 := h2
  unfold tx_buf
  rw [range3]
  simp only [List.map, List.cons_append, List.nil_append, List.cons.injEq, and_true, true_and]
  refine ⟨?_, ?_, ?_⟩ <;> omega

/-- C2. The header built in a cycle started in a reachable state is
`[0x53, b, out_length[0], out_length[1], out_length[2]]`: the low nibble of `b`
is `writable`, the high nibble is `channels_open` (bits 4..6), bits 3 and 7 are
clear, and every length byte is the channel's `out_length`, which is at most
255. -/
theorem header_layout (s sA : State) (inp : Input)
    (hr : Reachable s) (hp : PollModel s inp) (hs : socketPhase s inp = .ok sA) :
    ∃ b, tx_buf sA = [0x53, b, (sA.channels 0).out_length, (sA.channels 1).out_length,
        (sA.channels 2).out_length] ∧
      b % 16 = sA.writable ∧ b / 16 = sA.channels_open ∧
      (∀ i, i < N_CHANNEL →
        b.testBit i = sA.writable.testBit i ∧ b.testBit (4 + i) = sA.channels_open.testBit i) ∧
      b.testBit 3 = false ∧ b.testBit 7 = false ∧
      ∀ i, i < N_CHANNEL → (sA.channels i).out_length ≤ 255 := by
  have hIA := (inv_socketPhase s sA inp (inv_reachable s hr) hp hs).1
  have hb : ∀ i, i < N_CHANNEL → (sA.channels i).out_length ≤ 255 :=
    fun i hi => (hIA.chan i hi).bound
  obtain ⟨f1, f2, f3, f4, f5⟩ := flag_byte sA.writable sA.channels_open hIA.wlt hIA.olt
  exact ⟨(sA.writable ||| (sA.channels_open <<< 4)) % 256, tx_buf_inv sA hIA, f1, f2, f3, f4, f5,
    hb⟩

/-- Witness for C2: with channel 0 open, `writable` clear and `out_length[0] = 3`
the header is `53 10 03 00 00`. -/
theorem header_layout_witness :
    PollModel connected (abcInput [0xCA, 1, 0, 0, 0]) ∧
    tx_buf (headerState connected (abcInput [0xCA, 1, 0, 0, 0])) = [0x53, 0x10, 3, 0, 0] ∧
    ∃ b, tx_buf (headerState connected (abcInput [0xCA, 1, 0, 0, 0])) =
        [0x53, b, ((headerState connected (abcInput [0xCA, 1, 0, 0, 0])).channels 0).out_length,
          ((headerState connected (abcInput [0xCA, 1, 0, 0, 0])).channels 1).out_length,
          ((headerState connected (abcInput [0xCA, 1, 0, 0, 0])).channels 2).out_length] ∧
      b.testBit 3 = false ∧ b.testBit 7 = false := by
  refine ⟨by decide, by decide, ?_⟩
  obtain ⟨b, h1, _, _, _, h5, h6, _⟩ :=
    header_layout connected _ (abcInput [0xCA, 1, 0, 0, 0]) connected_reachable (by decide)
      (socketPhase_headerState _ _ (by decide))
  exact ⟨b, h1, h5, h6⟩

/-! ## C3: the retry counter -/

theorem retries_acceptBody (inp : Input) (k : Nat) (s s1 : State)
    (h : acceptBody inp k s = .ok s1) : s1.retries = s.retries := by
  by_cases hp : (s.fds (SOCK_POLL k)).revents &&& POLLIN ≠ 0
  · by_cases hf : inp.accept_ret k = -1
    · simp [acceptBody, hp, hf] at h
    · simp only [acceptBody, if_pos hp, if_neg hf, Except.ok.injEq] at h
      subst h; rfl
  · simp only [acceptBody, if_neg hp, Except.ok.injEq] at h
    subst h; rfl

theorem retries_sockBody (inp : Input) (r : Nat) (s : State) (k : Nat) (_hk : k < 3)
    (h : s.retries = r) : (sockBody inp k s).retries = r := by
  have h1 : (readPart inp k s).1.retries = r := by
    unfold readPart
    simp only []
    split_ifs <;> exact h
  unfold sockBody
  simp only []
  split_ifs <;> exact h1

theorem retries_deliverBody (rx : Nat → Nat) (r : Nat) (s : State) (k : Nat) (_hk : k < 3)
    (h : s.retries = r) : (deliverBody rx k s).retries = r := by
  unfold deliverBody
  simp only []
  split_ifs <;> exact h

theorem retries_descLoop (rx : Nat → Nat) (s : State) : (descLoop rx s).1.retries = s.retries := by
  have hb : ∀ k st, (descBody rx k st).1.retries = st.1.retries := by
    intro k st
    unfold descBody
    simp only []
    split_ifs <;> rfl
  unfold descLoop
  rw [range3]
  simp only [List.foldl]
  rw [hb, hb, hb]

theorem retries_xferLoop (inp : Input) (descs : List Desc) (s : State) :
    (descs.foldl (xferDesc inp) s).retries = s.retries := by
  induction descs generalizing s with
  | nil => rfl
  | cons d ds ih =>
    rw [List.foldl_cons, ih]
    rcases d with ⟨t, x, l⟩
    cases t <;> cases x <;> rfl

theorem retries_dataPhase (inp : Input) (rx : Nat → Nat) (s s1 : State)
    (h : dataPhase inp rx s = .ok s1) : s1.retries = s.retries := by
  rcases dataPhase_ok inp rx s s1 h with ⟨_, rfl⟩ | ⟨_, _, rfl⟩
  · exact retries_descLoop rx s
  · have := loop_inv (deliverBody rx) (fun u => u.retries = s.retries)
      (fun u k hk h => retries_deliverBody rx _ u k hk h)
      ((descLoop rx s).2.foldl (xferDesc inp) ((descLoop rx s).1.emit (Ev.xfer (descLoop rx s).2)))
      ((retries_xferLoop inp _ _).trans (retries_descLoop rx s))
    exact this

theorem retries_socketPhase (s sA : State) (inp : Input) (h : socketPhase s inp = .ok sA) :
    sA.retries = s.retries := by
  obtain ⟨s1, ha, rfl⟩ := socketPhase_ok s sA inp h
  obtain ⟨a, b, h0, h1, h2⟩ := acceptLoop_ok inp _ s1 ha
  have e1 : s1.retries = s.retries := by
    rw [retries_acceptBody inp 2 b s1 h2, retries_acceptBody inp 1 a b h1,
      retries_acceptBody inp 0 _ a h0]
    rfl
  exact loop_inv (sockBody inp) (fun u => u.retries = s.retries)
    (fun u k hk h => retries_sockBody inp _ u k hk h) s1 e1

theorem acceptBody_total (inp : Input) (k : Nat) (s : State) (h : inp.accept_ret k ≠ -1) :
    ∃ s1, acceptBody inp k s = .ok s1 := by
  unfold acceptBody
  simp only []
  split_ifs
  · exact ⟨_, rfl⟩
  · exact ⟨_, rfl⟩

theorem socketPhase_total (s : State) (inp : Input) (hc : Clean inp) :
    ∃ sA, socketPhase s inp = .ok sA := by
  obtain ⟨c1, c2, c3, c4, _⟩ := hc
  obtain ⟨a, h0⟩ := acceptBody_total inp 0 (pollFds inp s) (c4 0 (by decide))
  obtain ⟨b, h1⟩ := acceptBody_total inp 1 a (c4 1 (by decide))
  obtain ⟨c, h2⟩ := acceptBody_total inp 2 b (c4 2 (by decide))
  have hl : acceptLoop inp (pollFds inp s) = .ok c := by
    unfold acceptLoop
    rw [range3]
    simp only [List.foldlM, bind, Except.bind, h0, h1, h2]
    rfl
  have n1 : ¬ inp.poll_ret < 0 := by omega
  have n2 : ¬ (((pollFds inp s).fds GPIO_POLL).revents &&& POLLPRI ≠ 0 ∧ inp.irq_read_ret < 0) :=
    fun h => by omega
  have n3 : ¬ inp.sync_low_ret < 0 := by omega
  refine ⟨sockLoop inp c, ?_⟩
  simp only [socketPhase, if_neg n1, if_neg n2, if_neg n3, hl]

theorem acceptLoop_not_retries (inp : Input) (s : State) :
    acceptLoop inp s ≠ .error Fatal.retries := by
  intro hl
  have hb : ∀ k u, acceptBody inp k u ≠ .error Fatal.retries := by
    intro k u hu
    unfold acceptBody at hu
    simp only [] at hu
    split_ifs at hu
    cases hu
  unfold acceptLoop at hl
  rw [range3] at hl
  simp only [List.foldlM, bind, Except.bind] at hl
  cases h0 : acceptBody inp 0 s with
  | error e => simp only [h0] at hl; exact hb _ _ (h0.trans hl)
  | ok a =>
    simp only [h0] at hl
    cases h1 : acceptBody inp 1 a with
    | error e => simp only [h1] at hl; exact hb _ _ (h1.trans hl)
    | ok b =>
      simp only [h1] at hl
      cases h2 : acceptBody inp 2 b with
      | error e => simp only [h2] at hl; exact hb _ _ (h2.trans hl)
      | ok c => simp [h2, pure, Except.pure] at hl

theorem socketPhase_not_retries (s : State) (inp : Input) :
    socketPhase s inp ≠ .error Fatal.retries := by
  intro h
  by_cases h1 : inp.poll_ret < 0
  · simp [socketPhase, h1] at h
  by_cases h2 : ((pollFds inp s).fds GPIO_POLL).revents &&& POLLPRI ≠ 0 ∧ inp.irq_read_ret < 0
  · simp only [socketPhase, if_neg h1, if_pos h2] at h
    cases h
  by_cases h3 : inp.sync_low_ret < 0
  · simp only [socketPhase, if_neg h1, if_neg h2, if_pos h3] at h
    cases h
  simp only [socketPhase, if_neg h1, if_neg h2, if_neg h3] at h
  cases hl : acceptLoop inp (pollFds inp s) with
  | ok c => simp [hl] at h
  | error e =>
    simp only [hl, Except.error.injEq] at h
    subst h
    exact acceptLoop_not_retries inp _ hl

theorem status_socketPhase (s sA : State) (inp : Input) (h : socketPhase s inp = .ok sA)
    (j : Nat) (hj : j < 3) : sA.channel_status j = s.channel_status j := by
  obtain ⟨v1, ha, hv⟩ := view_socketPhase s sA inp h j hj
  have e1 : v1.status = (view j s).status := by
    unfold acceptV at ha
    split_ifs at ha
    · injection ha with ha; subst ha; rfl
    · injection ha with ha; subst ha; rfl
  have e2 : (sockV inp j v1).status = v1.status := by
    have e3 : (readV inp j v1).1.status = v1.status := by
      unfold readV; simp only []; split_ifs <;> rfl
    unfold sockV
    simp only []
    split_ifs <;> exact e3
  have : (view j sA).status = (view j s).status := by rw [hv, e2, e1]
  exact this

theorem cycle_bad (s : State) (inp : Input) (hc : Clean inp) (hb : rx_buf inp 0 ≠ 0xCA) :
    ∃ sA, socketPhase s inp = .ok sA ∧
      cycle s inp =
        if s.retries + 1 > 15 then .error Fatal.retries
        else .ok ((sA.emit (headerEv inp sA)).setRetries (s.retries + 1)) := by
  obtain ⟨sA, hs⟩ := socketPhase_total s inp hc
  refine ⟨sA, hs, ?_⟩
  have hr := retries_socketPhase s sA inp hs
  have n1 : ¬ inp.hdr_status < 0 := by have := hc.2.2.2.2.1; omega
  have n2 : ¬ inp.sync_high_ret < 0 := by have := hc.2.2.2.2.2.1; omega
  unfold cycle
  simp only [hs, headerPhase, if_neg n1, if_neg n2, if_pos hb]
  have e : ((sA.emit (Ev.header (tx_buf sA) (List.map (rx_buf inp) (List.range (2 + N_CHANNEL))))).setRetries
      ((sA.emit (Ev.header (tx_buf sA) (List.map (rx_buf inp) (List.range (2 + N_CHANNEL))))).retries + 1)).retries
      = s.retries + 1 := by rw [← hr]; rfl
  rw [e]
  split_ifs
  · rfl
  · rw [← hr]; rfl

theorem cycle_good (s : State) (inp : Input) (hc : Clean inp) (hv : rx_buf inp 0 = 0xCA) :
    ∃ s1, cycle s inp = .ok s1 ∧ s1.retries = 0 := by
  obtain ⟨sA, hs⟩ := socketPhase_total s inp hc
  rw [cycle_valid s sA inp hs hc.2.2.2.2.1 hc.2.2.2.2.2.1 hv]
  have hd : ∃ s1, dataPhase inp (rx_buf inp) (afterStatus inp sA) = .ok s1 := by
    by_cases hn : (descLoop (rx_buf inp) (afterStatus inp sA)).2 = []
    · exact ⟨_, dataPhase_nil inp _ _ hn⟩
    · exact dataPhase_run inp _ _ hn hc.2.2.2.2.2.2
  obtain ⟨s1, h1⟩ := hd
  exact ⟨s1, h1, by rw [retries_dataPhase inp _ _ _ h1]; rfl⟩

theorem run_bad (inps : List Input) :
    ∀ s : State, (∀ inp ∈ inps, Clean inp ∧ rx_buf inp 0 ≠ 0xCA) →
      s.retries + inps.length ≤ 15 →
      ∃ s1, run s inps = .ok s1 ∧ s1.retries = s.retries + inps.length ∧
        ∀ j, j < N_CHANNEL → s1.channel_status j = s.channel_status j := by
  induction inps with
  | nil => intro s _ _; exact ⟨s, rfl, rfl, fun _ _ => rfl⟩
  | cons inp rest ih =>
    intro s hin hlen
    simp only [List.length_cons] at hlen
    obtain ⟨hc, hb⟩ := hin inp (List.mem_cons_self _ _)
    obtain ⟨sA, hs, hcy⟩ := cycle_bad s inp hc hb
    have hn : ¬ s.retries + 1 > 15 := by omega
    rw [if_neg hn] at hcy
    obtain ⟨s1, h1, h2, h3⟩ := ih ((sA.emit (headerEv inp sA)).setRetries (s.retries + 1))
      (fun i hi => hin i (List.mem_cons_of_mem _ hi))
      (by show s.retries + 1 + rest.length ≤ 15; omega)
    refine ⟨s1, ?_, ?_, ?_⟩
    · simp only [run, hcy]; exact h1
    · rw [h2]; show s.retries + 1 + rest.length = s.retries + (rest.length + 1); omega
    · intro j hj
      rw [h3 j hj]
      exact status_socketPhase s sA inp hs j hj

theorem run_fatal (inps : List Input) :
    ∀ s : State, (∀ inp ∈ inps, Clean inp ∧ rx_buf inp 0 ≠ 0xCA) → inps ≠ [] →
      s.retries + inps.length = 16 → run s inps = .error Fatal.retries := by
  induction inps with
  | nil => intro s _ h _; exact absurd rfl h
  | cons inp rest ih =>
    intro s hin _ hlen
    simp only [List.length_cons] at hlen
    obtain ⟨hc, hb⟩ := hin inp (List.mem_cons_self _ _)
    obtain ⟨sA, hs, hcy⟩ := cycle_bad s inp hc hb
    by_cases hr : rest = []
    · subst hr
      simp only [List.length_nil] at hlen
      have hn : s.retries + 1 > 15 := by omega
      rw [if_pos hn] at hcy
      simp only [run, hcy]
    · have hpos : 0 < rest.length := List.length_pos.mpr hr
      have hn : ¬ s.retries + 1 > 15 := by omega
      rw [if_neg hn] at hcy
      simp only [run, hcy]
      exact ih _ (fun i hi => hin i (List.mem_cons_of_mem _ hi)) hr
        (by show s.retries + 1 + rest.length = 16; omega)

theorem fatal_retries_only_when (u : State) (inp : Input)
    (h : cycle u inp = .error Fatal.retries) : rx_buf inp 0 ≠ 0xCA ∧ 15 ≤ u.retries := by
  unfold cycle at h
  cases hs : socketPhase u inp with
  | error e =>
    simp only [hs, Except.error.injEq] at h
    subst h
    exact absurd hs (socketPhase_not_retries u inp)
  | ok sA =>
    simp only [hs] at h
    have hr := retries_socketPhase u sA inp hs
    by_cases h1 : inp.hdr_status < 0
    · simp [headerPhase, h1] at h
    by_cases h2 : inp.sync_high_ret < 0
    · simp [headerPhase, h1, h2] at h
    by_cases h3 : rx_buf inp 0 = 0xCA
    · rw [headerPhase_valid inp sA h3 (by omega) (by omega)] at h
      by_cases hn : (descLoop (rx_buf inp) (afterStatus inp sA)).2 = []
      · rw [dataPhase_nil inp _ _ hn] at h; cases h
      · by_cases hd : inp.data_status < 0
        · rw [dataPhase_fail inp _ _ hn hd] at h; cases h
        · obtain ⟨s1, h1⟩ := dataPhase_run inp (rx_buf inp) (afterStatus inp sA) hn (by omega)
          rw [h1] at h; cases h
    · refine ⟨h3, ?_⟩
      have h3n : rx_buf inp 0 ≠ 0xCA := h3
      simp only [headerPhase, if_neg h1, if_neg h2, if_pos h3n] at h
      by_cases h4 : sA.retries + 1 > 15
      · omega
      · exfalso
        have e : ((sA.emit (Ev.header (tx_buf sA) (List.map (rx_buf inp) (List.range (2 + N_CHANNEL))))).setRetries
            ((sA.emit (Ev.header (tx_buf sA) (List.map (rx_buf inp) (List.range (2 + N_CHANNEL))))).retries + 1)).retries
            = sA.retries + 1 := rfl
        rw [e, if_neg h4] at h
        cases h

/-- C3. Starting with `retries = 0` (process start, or after a valid header
reply), a run of `k ≤ 15` cycles whose header replies are all invalid (and in
which no system call fails) keeps the loop running with `retries = k` and the
stored enable statuses untouched; in that state a valid reply resets `retries`
to 0, and a further invalid reply (while `k < 15`) ends the cycle in exactly
the state in which the header was built, plus the header log entry and the
incremented counter: no enable delta, no data exchange. A run of 16 invalid
replies is fatal, and a cycle is fatal for bad headers only on an invalid reply
with at least 15 invalid replies counted before. -/
theorem retry_budget (s : State) (inps : List Input) (h0 : s.retries = 0)
    (hin : ∀ inp ∈ inps, Clean inp ∧ rx_buf inp 0 ≠ 0xCA) :
    (inps.length ≤ 15 →
      ∃ s1, run s inps = .ok s1 ∧ s1.retries = inps.length ∧
        (∀ j, j < N_CHANNEL → s1.channel_status j = s.channel_status j) ∧
        (∀ inp, Clean inp → rx_buf inp 0 = 0xCA →
          ∃ s2, cycle s1 inp = .ok s2 ∧ s2.retries = 0) ∧
        (∀ inp, Clean inp → rx_buf inp 0 ≠ 0xCA → inps.length < 15 →
          ∃ sA, socketPhase s1 inp = .ok sA ∧
            cycle s1 inp = .ok ((sA.emit (headerEv inp sA)).setRetries (inps.length + 1)))) ∧
    (inps.length = 16 → run s inps = .error Fatal.retries) ∧
    (∀ u inp, cycle u inp = .error Fatal.retries → rx_buf inp 0 ≠ 0xCA ∧ 15 ≤ u.retries) := by
  refine ⟨?_, ?_, fatal_retries_only_when⟩
  · intro hlen
    obtain ⟨s1, h1, h2, h3⟩ := run_bad inps s hin (by omega)
    have h2' : s1.retries = inps.length := by omega
    refine ⟨s1, h1, h2', h3, fun inp hc hv => cycle_good s1 inp hc hv, ?_⟩
    intro inp hc hb hk
    obtain ⟨sA, hs, hcy⟩ := cycle_bad s1 inp hc hb
    have hn : ¬ s1.retries + 1 > 15 := by omega
    rw [if_neg hn, h2'] at hcy
    exact ⟨sA, hs, hcy⟩
  · intro hlen
    refine run_fatal inps s hin ?_ (by omega)
    intro e
    rw [e] at hlen
    cases hlen

/-- Witness for C3: from cold start, 15 replies with byte 0 = `0x00` leave the
loop running with `retries = 15`, after which `CA` resets the counter; 16 such
replies are fatal. -/
theorem retry_budget_witness :
    (∃ s1, run coldStart (List.replicate 15 (idleInput [0, 0, 0, 0, 0])) = .ok s1 ∧
      s1.retries = 15 ∧
      ∀ inp, Clean inp → rx_buf inp 0 = 0xCA → ∃ s2, cycle s1 inp = .ok s2 ∧ s2.retries = 0) ∧
    run coldStart (List.replicate 16 (idleInput [0, 0, 0, 0, 0])) = .error Fatal.retries := by
  have hin : ∀ n, ∀ inp ∈ List.replicate n (idleInput [0, 0, 0, 0, 0]),
      Clean inp ∧ rx_buf inp 0 ≠ 0xCA := by
    intro n inp hi
    rw [List.eq_of_mem_replicate hi]
    exact ⟨by decide, by decide⟩
  constructor
  · obtain ⟨s1, h1, h2, _, h4, _⟩ :=
      (retry_budget coldStart (List.replicate 15 (idleInput [0, 0, 0, 0, 0])) rfl (hin 15)).1
        (by simp)
    exact ⟨s1, h1, by simpa using h2, h4⟩
  · exact (retry_budget coldStart (List.replicate 16 (idleInput [0, 0, 0, 0, 0])) rfl
      (hin 16)).2.1 (by simp)

/-! ## C4: what the header agrees on is dropped by an enable transition -/

theorem mem_dataDescs (inp : Input) (s : State) (c : Nat) (hc : c < 3) (d : Desc)
    (h : d ∈ txDesc (rx_buf inp) c (view c (afterStatus inp s)) ++
      rxDesc (rx_buf inp) c (view c (afterStatus inp s))) : d ∈ dataDescs inp s := by
  unfold dataDescs
  rw [descLoop_snd]
  interval_cases c
  · exact List.mem_append_left _ h
  · exact List.mem_append_right _ (List.mem_append_left _ h)
  · exact List.mem_append_right _ (List.mem_append_right _ h)

/-- Support for C4: the only cycles that miss an agreed transfer are enable
transitions. In a cycle started in a reachable state, for a channel `c` whose
enable bit in the reply equals the stored `channel_status[c]`, or whose stored
status is non-zero: if the host's header advertised `tx[2+c] > 0` and the
reply has the ready bit of `c` set, the descriptor list of the cycle's data
transfer contains a tx-only descriptor for `c` of exactly `tx[2+c]` bytes; if
the host's header advertised the writable bit of `c` in `tx[1]` and the reply
has `rx[2+c] > 0`, it contains an rx-only descriptor for `c` of exactly
`rx[2+c]` bytes. What is left out is a stored status 0 with the enable bit set
in the reply. -/
theorem agreed_transfer_unless_enable_transition (s sA : State) (inp : Input)
    (hr : Reachable s) (hp : PollModel s inp) (hs : socketPhase s inp = .ok sA)
    (c : Nat) (hc : c < N_CHANNEL)
    (hok : (rx_buf inp 1 &&& (0x10 <<< c)) % 256 = s.channel_status c ∨
      s.channel_status c ≠ 0) :
    (0 < (tx_buf sA).getD (2 + c) 0 → (rx_buf inp 1).testBit c = true →
      (⟨some c, none, (tx_buf sA).getD (2 + c) 0⟩ : Desc) ∈ dataDescs inp sA) ∧
    (((tx_buf sA).getD 1 0).testBit c = true → 0 < rx_buf inp (2 + c) →
      (⟨none, some c, rx_buf inp (2 + c)⟩ : Desc) ∈ dataDescs inp sA) := by
  have hIA := (inv_socketPhase s sA inp (inv_reachable s hr) hp hs).1
  have hstA : (view c sA).status = s.channel_status c := status_socketPhase s sA inp hs c hc
  have htx := tx_buf_inv sA hIA
  have hc3 : c < 3 := hc
  have hlen : (tx_buf sA).getD (2 + c) 0 = (view c sA).out_length := by
    rw [htx]
    interval_cases c <;> rfl
  obtain ⟨_, _, f3, _, _⟩ := flag_byte sA.writable sA.channels_open hIA.wlt hIA.olt
  have hflag : ((tx_buf sA).getD 1 0).testBit c = (view c sA).wbit := by
    rw [htx]
    exact (f3 c hc).1
  rcases hok with hsame | hne
  · have hst : (rx_buf inp 1 &&& (0x10 <<< c)) % 256 = (view c sA).status := by
      rw [hsame]; exact hstA.symm
    have hview : view c (afterStatus inp sA) = view c sA := by
      rw [view_afterStatus inp sA c hc, statusV_same _ _ _ hst]
    constructor
    · intro hpos hready
      apply mem_dataDescs inp sA c hc
      apply List.mem_append_left
      rw [hview, hlen]
      rw [hlen] at hpos
      have hcond : rx_buf inp 1 &&& (1 <<< c) ≠ 0 ∧ (view c sA).out_length > 0 :=
        ⟨(and_shift_ne_zero _ _).mpr hready, hpos⟩
      simp only [txDesc, if_pos hcond, List.mem_singleton]
    · intro hw hpos
      apply mem_dataDescs inp sA c hc
      apply List.mem_append_right
      rw [hview]
      rw [hflag] at hw
      have hcond : (view c sA).wbit = true ∧ rx_buf inp (2 + c) > 0 := ⟨hw, hpos⟩
      simp only [rxDesc, if_pos hcond, List.mem_singleton]
  · -- a channel with a non-zero stored status holds no connection: nothing is advertised
    have hV := hIA.chan c hc
    have hfd : (view c sA).conn.fd = -1 := (hV.enabled (by rw [hstA]; exact hne)).1
    constructor
    · intro hpos _
      rw [hlen] at hpos
      exact absurd hfd (hV.pending hpos).1
    · intro hw _
      rw [hflag] at hw
      exact absurd hfd (hV.opened.mp (hV.wopen hw))

/-- Support for C4, an instance: channel 0 holds `"abc"`, the reply
`CA 01 00 00 00` leaves the enable status as stored, and the descriptor list
has the tx-only descriptor of 3 bytes. -/
theorem agreed_transfer_instance :
    PollModel connected (abcInput [0xCA, 1, 0, 0, 0]) ∧
    (rx_buf (abcInput [0xCA, 1, 0, 0, 0]) 1 &&& (0x10 <<< 0)) % 256 = connected.channel_status 0 ∧
    (tx_buf (headerState connected (abcInput [0xCA, 1, 0, 0, 0]))).getD (2 + 0) 0 = 3 ∧
    (⟨some 0, none,
        (tx_buf (headerState connected (abcInput [0xCA, 1, 0, 0, 0]))).getD (2 + 0) 0⟩ : Desc) ∈
      dataDescs (abcInput [0xCA, 1, 0, 0, 0])
        (headerState connected (abcInput [0xCA, 1, 0, 0, 0])) :=
  ⟨by decide, by decide, by decide,
    (agreed_transfer_unless_enable_transition connected _ (abcInput [0xCA, 1, 0, 0, 0])
      connected_reachable (by decide) (socketPhase_headerState _ _ (by decide)) 0 (by decide)
      (Or.inl (by decide))).1 (by decide) (by decide)⟩

/-- C4, the code at the failing input. A client is connected to channel 0
(stored status 0), it writes `"abc"` and the peer replies `CA 11 00 00 00`:
the host's header advertises `tx[2] = 3` and the reply has the ready bit of
channel 0 set, so the cycle's data transfer should carry a tx-only descriptor
of 3 bytes for channel 0. The code builds no descriptor and issues no data
ioctl: the enable bit of the reply (`0x10`) differs from the stored status, the
comparison `new_status == 1` is false, and the branch meant for a disabled
channel closes the connection and zeroes `out_length[0]`. -/
theorem agreed_outbound_dropped_on_enable_transition :
    Reachable connected ∧
    PollModel connected (abcInput [0xCA, 0x11, 0, 0, 0]) ∧
    connected.channel_status 0 = 0 ∧
    socketPhase connected (abcInput [0xCA, 0x11, 0, 0, 0]) =
      .ok (headerState connected (abcInput [0xCA, 0x11, 0, 0, 0])) ∧
    rx_buf (abcInput [0xCA, 0x11, 0, 0, 0]) 0 = 0xCA ∧
    tx_buf (headerState connected (abcInput [0xCA, 0x11, 0, 0, 0])) = [0x53, 0x10, 3, 0, 0] ∧
    (rx_buf (abcInput [0xCA, 0x11, 0, 0, 0]) 1).testBit 0 = true ∧
    rx_buf (abcInput [0xCA, 0x11, 0, 0, 0]) 1 &&& (0x10 <<< 0) = 0x10 ∧
    dataDescs (abcInput [0xCA, 0x11, 0, 0, 0])
      (headerState connected (abcInput [0xCA, 0x11, 0, 0, 0])) = [] ∧
    (cycle connected (abcInput [0xCA, 0x11, 0, 0, 0])).isOk = true ∧
    xfers (after connected (abcInput [0xCA, 0x11, 0, 0, 0])).log = [] ∧
    ((after connected (abcInput [0xCA, 0x11, 0, 0, 0])).fds (CONN_POLL 0)).fd = -1 ∧
    ((after connected (abcInput [0xCA, 0x11, 0, 0, 0])).channels 0).out_length = 0 :=
  ⟨connected_reachable, by decide, by decide, socketPhase_headerState _ _ (by decide), by decide,
    by decide, by decide, by decide, by decide, by decide, by decide, by decide, by decide⟩

/-! ## C5: an enable transition takes the disable branch -/

/-- C5, the code at the failing input. Channel 0 holds a connection (handle 7)
and its stored status is 0; the peer replies `CA 10 00 00 00`, enable bit of
channel 0 set. The enable-delta step closes the connection, clears the
channel's `channels_open` bit and leaves the listen socket disarmed
(`events = 0`, not `POLLIN`), storing `0x10` as the new status. -/
theorem enable_transition_closes_connection :
    connected.channel_status 0 = 0 ∧
    (connected.fds (CONN_POLL 0)).fd = 7 ∧
    connected.channels_open = 1 ∧
    (connected.fds (SOCK_POLL 0)).events = 0 ∧
    rx_buf (idleInput [0xCA, 0x10, 0, 0, 0]) 1 &&& (0x10 <<< 0) ≠ 0 ∧
    (cycle connected (idleInput [0xCA, 0x10, 0, 0, 0])).isOk = true ∧
    ((after connected (idleInput [0xCA, 0x10, 0, 0, 0])).fds (CONN_POLL 0)).fd = -1 ∧
    (after connected (idleInput [0xCA, 0x10, 0, 0, 0])).channels_open = 0 ∧
    ((after connected (idleInput [0xCA, 0x10, 0, 0, 0])).fds (SOCK_POLL 0)).events = 0 ∧
    (after connected (idleInput [0xCA, 0x10, 0, 0, 0])).channel_status 0 = 0x10 ∧
    Ev.close 0 7 ∈ (after connected (idleInput [0xCA, 0x10, 0, 0, 0])).log := by
  decide

/-! ## C6: one connection per channel -/

/-- C6. In every reachable state a channel that holds a connection has its
listen socket masked (`events = 0`); hence under the poll model the accept
condition of such a channel is false in the next cycle, and every `accept`
performed so far, or in the socket phase of the next cycle, stored its handle
into an empty slot (`-1`): no accepted handle is overwritten. -/
theorem single_connection_per_channel (s : State) (hr : Reachable s) :
    (∀ i, i < N_CHANNEL →
      (s.fds (CONN_POLL i)).fd ≠ -1 → (s.fds (SOCK_POLL i)).events = 0) ∧
    (∀ inp, PollModel s inp → ∀ i, i < N_CHANNEL → (s.fds (CONN_POLL i)).fd ≠ -1 →
      ((pollFds inp s).fds (SOCK_POLL i)).revents &&& POLLIN = 0) ∧
    (∀ e ∈ s.log, ∀ c old new, e = Ev.accept c old new → old = -1) ∧
    (∀ inp sA, PollModel s inp → socketPhase s inp = .ok sA →
      ∀ e ∈ sA.log, ∀ c old new, e = Ev.accept c old new → old = -1) := by
  have hI := inv_reachable s hr
  have hlog : ∀ u : State, Inv u → ∀ e ∈ u.log, ∀ c old new, e = Ev.accept c old new →
      old = -1 := by
    intro u hu e he c old new heq
    have := hu.logok e he
    rw [heq] at this
    exact this
  refine ⟨fun i hi => (hI.chan i hi).masked, ?_, hlog s hI, ?_⟩
  · intro inp hp i hi hfd
    have hv := view_pollFds inp s i hi
    have hs := (polled_of_model s inp hp i hi).2
    by_contra hne
    have h1 : (pollV inp i (view i s)).sock.revents &&& POLLIN ≠ 0 := by
      rw [← hv]; exact hne
    exact hfd (accept_free _ (vinv_pollV inp i _ (hI.chan i hi)) hs h1)
  · intro inp sA hp hs
    exact hlog sA (inv_socketPhase s sA inp hI hp hs).1

/-- Witness for C6: the state after a client connected to channel 0 is
reachable; it holds handle 7 and its listen socket is masked. -/
theorem single_connection_witness :
    (connected.fds (CONN_POLL 0)).fd = 7 ∧ (connected.fds (SOCK_POLL 0)).events = 0 ∧
    connected.log = [Ev.accept 0 (-1) 7, Ev.header [0x53, 0x10, 0, 0, 0] [0xCA, 0, 0, 0, 0]] :=
  ⟨by decide,
    (single_connection_per_channel connected connected_reachable).1 0 (by decide) (by decide),
    by decide⟩

/-! ## C8: outbound payloads are the chunks read, in order -/

theorem sent_sublist_read (tr : List CEv) :
    ∀ p q : Pending, chanSpec p tr = some q →
      (sentPayloads tr ++ q.toList).Sublist (p.toList ++ readChunks tr) := by
  induction tr with
  | nil =>
    intro p q h
    simp only [chanSpec, List.foldlM_nil, pure, Option.some.injEq] at h
    subst h
    simp [sentPayloads, readChunks]
  | cons e tr ih =>
    intro p q h
    simp only [chanSpec, List.foldlM_cons] at h
    cases hs : chanStep p e with
    | none => simp [hs] at h
    | some p1 =>
      simp only [hs, Option.bind_eq_bind, Option.some_bind] at h
      have ih1 := ih p1 q h
      cases e with
      | read chunk =>
        simp only [chanStep] at hs
        split_ifs at hs with hp
        injection hs with hs
        subst hs hp
        simpa [sentPayloads, readChunks, Pending.toList] using ih1
      | tx payload =>
        simp only [chanStep] at hs
        split_ifs at hs with hp
        injection hs with hs
        subst hs hp
        simpa [sentPayloads, readChunks, Pending.toList] using ih1
      | close =>
        simp only [chanStep, Option.some.injEq] at hs
        subst hs
        have : (sentPayloads tr ++ q.toList).Sublist (readChunks tr) := by
          simpa [Pending.toList] using ih1
        have h2 : (sentPayloads tr ++ q.toList).Sublist (p.toList ++ readChunks tr) :=
          this.trans (List.sublist_append_right _ _)
        simpa [sentPayloads, readChunks] using h2

/-- C8. On every reachable run and every channel `c`, the channel's log of
reads, outbound payloads and closes follows the reference behaviour
`chanStep` (a chunk is read only into an empty slot, so chunks are never
merged or overwritten; an outbound descriptor carries exactly the pending
chunk, the most recent read; a pending chunk disappears only through its
transmission or a `close_connection`), and therefore the sequence of outbound
payloads is a subsequence of the sequence of chunks read. -/
theorem outbound_payloads_follow_reads (s : State) (hr : Reachable s) (c : Nat)
    (hc : c < N_CHANNEL) :
    chanSpec Pending.empty (chanEvs c s.log) =
      some (pendingOf (view c s)) ∧
    (sentPayloads (chanEvs c s.log)).Sublist (readChunks (chanEvs c s.log)) := by
  have ht : chanSpec Pending.empty (chanEvs c s.log) = some (pendingOf (view c s)) :=
    (inv_reachable s hr).trace c hc
  refine ⟨ht, ?_⟩
  have h := sent_sublist_read _ _ _ ht
  simp only [Pending.toList, List.nil_append] at h
  exact (List.sublist_append_left _ _).trans h

/-- Witness for C8: after the client of channel 0 wrote `"abc"` and the peer
accepted it, the channel's log is the read followed by the transmission of
the same bytes. -/
theorem outbound_payloads_witness :
    chanEvs 0 (after connected (abcInput [0xCA, 1, 0, 0, 0])).log =
      [CEv.read [97, 98, 99], CEv.tx [97, 98, 99]] ∧
    (sentPayloads (chanEvs 0 (after connected (abcInput [0xCA, 1, 0, 0, 0])).log)).Sublist
      (readChunks (chanEvs 0 (after connected (abcInput [0xCA, 1, 0, 0, 0])).log)) :=
  ⟨by decide,
    (outbound_payloads_follow_reads _
      (Reachable.next (abcInput [0xCA, 1, 0, 0, 0]) connected_reachable (by decide)
        (cycle_after _ _ (by decide))) 0 (by decide)).2⟩

/-! ## C10: the flag bytes and the connection table -/

theorem flagsOK_of (s : State) (hw : s.writable < 8) (ho : s.channels_open < 8)
    (hv : ∀ j, j < N_CHANNEL → VInv (view j s)) : FlagsOK s := by
  refine ⟨?_, fun i hi => ⟨(hv i hi).opened, (hv i hi).wopen⟩⟩
  intro k hk
  have h8 : (8 : Nat) ≤ 2 ^ k := by
    calc (8 : Nat) = 2 ^ 3 := by norm_num
      _ ≤ 2 ^ k := Nat.pow_le_pow_right (by norm_num) hk
  exact ⟨Nat.testBit_lt_two_pow (lt_of_lt_of_le hw h8),
    Nat.testBit_lt_two_pow (lt_of_lt_of_le ho h8)⟩

theorem flagsOK_deliverState (inp : Input) (s : State) (hI : Inv (afterStatus inp s)) :
    FlagsOK (deliverState inp s) := by
  have r0 : Rest (afterStatus inp s).retries
      ((descLoop (rx_buf inp) (afterStatus inp s)).1.emit (Ev.xfer (dataDescs inp s))) :=
    rest_descLoop (rx_buf inp) _ _ hI.rest
  have r1 := rest_xferLoop inp _ (dataDescs inp s) _ r0
  refine flagsOK_of _ r1.1 r1.2.1 ?_
  intro j hj
  unfold deliverState
  rw [view_xferLoop, view_emit_xfer, view_descLoop _ _ j hj]
  exact (vinv_xferV (rx_buf inp) j _ _ (hI.chan j hj) (hI.trace j hj)
    (txPayloads_descLoop (rx_buf inp) _ j hj _)).1

/-- C10. In a cycle started in a reachable state, at the point where the
header is built, at the point where the data transfer is prepared and at the
point where received data is delivered, and again at the end of the cycle, the
flag bytes agree with the connection table (`FlagsOK`): bit `i` of
`channels_open` is set iff channel `i` holds a connection, bit `i` of
`writable` is set only if bit `i` of `channels_open` is, and bits 3 and up of
both bytes are clear. Hence every `write` that delivers inbound payload is
issued on a held handle, never on `-1`. -/
theorem flags_match_connection_table (s sA : State) (inp : Input)
    (hr : Reachable s) (hp : PollModel s inp) (hs : socketPhase s inp = .ok sA) :
    FlagsOK sA ∧ FlagsOK (afterStatus inp sA) ∧ FlagsOK (deliverState inp sA) ∧
    ∀ s1, cycle s inp = .ok s1 →
      FlagsOK s1 ∧ ∀ e ∈ s1.log, ∀ c fd data, e = Ev.write c fd data → fd ≠ -1 := by
  have hI := inv_reachable s hr
  have hIA := (inv_socketPhase s sA inp hI hp hs).1
  have hID := inv_afterStatus inp sA hIA
  refine ⟨flagsOK_of sA hIA.wlt hIA.olt hIA.chan, flagsOK_of _ hID.wlt hID.olt hID.chan,
    flagsOK_deliverState inp sA hID, ?_⟩
  intro s1 hc
  have hI1 := inv_cycle s s1 inp hI hp hc
  refine ⟨flagsOK_of s1 hI1.wlt hI1.olt hI1.chan, ?_⟩
  intro e he c fd data heq
  have := hI1.logok e he
  rw [heq] at this
  exact this

/-! ## A channel through one cycle -/

theorem view_cycle (s s1 : State) (inp : Input) (h : cycle s inp = .ok s1) (j : Nat)
    (hj : j < 3) :
    ∃ sA, socketPhase s inp = .ok sA ∧
      ((rx_buf inp 0 ≠ 0xCA ∧ view j s1 = view j sA) ∨
       (rx_buf inp 0 = 0xCA ∧
        view j s1 = deliverV (rx_buf inp) j (xferV j (dataDescs inp sA)
          (descV (rx_buf inp) j (statusV (rx_buf inp) j (view j sA)))))) := by
  obtain ⟨sA, h1, h2⟩ := cycle_ok s s1 inp h
  refine ⟨sA, h1, ?_⟩
  obtain ⟨_, _, hc⟩ := headerPhase_ok inp sA s1 h2
  rcases hc with ⟨hb, _, rfl⟩ | ⟨hv, hd⟩
  · left
    exact ⟨hb, by rw [view_setRetries, view_emit_header]⟩
  · right
    refine ⟨hv, ?_⟩
    rw [view_dataPhase inp _ _ _ hd j hj, view_afterStatus inp sA j hj]
    rfl

theorem dataV_frame (rx : Nat → Nat) (j : Nat) (d : List Desc) (u : View) :
    (deliverV rx j (xferV j d (descV rx j u))).conn.fd = u.conn.fd ∧
    (deliverV rx j (xferV j d (descV rx j u))).sock = u.sock ∧
    (deliverV rx j (xferV j d (descV rx j u))).out_buf = u.out_buf ∧
    (deliverV rx j (xferV j d (descV rx j u))).status = u.status ∧
    (deliverV rx j (xferV j d (descV rx j u))).obit = u.obit := by
  unfold deliverV xferV descV
  split_ifs <;> simp

theorem dataV_rearm (rx : Nat → Nat) (j : Nat) (d : List Desc) (u : View)
    (h0 : u.conn.events &&& POLLIN = 0)
    (h : (deliverV rx j (xferV j d (descV rx j u))).conn.events &&& POLLIN ≠ 0) :
    (rx 1 &&& (1 <<< j) ≠ 0 ∧ u.out_length > 0) ∧
      (deliverV rx j (xferV j d (descV rx j u))).out_length = 0 := by
  by_cases hc : rx 1 &&& (1 <<< j) ≠ 0 ∧ u.out_length > 0
  · refine ⟨hc, ?_⟩
    unfold deliverV xferV
    simp only [descV, if_pos hc]
    split_ifs <;> rfl
  · exfalso
    unfold deliverV xferV at h
    simp only [descV, if_neg hc] at h
    split_ifs at h
    · exact ((in_set_out _).mp h) h0
    · exact h h0

theorem and_zero_left (m : Nat) : (0 : Nat) &&& m = 0 := by simp

theorem sockV_idle (inp : Input) (j : Nat) (v : View) (h : v.conn.revents = 0) :
    sockV inp j v = v := by
  have hr : readV inp j v = (v, false) := by
    unfold readV
    rw [h, and_zero_left]
    simp
  unfold sockV
  simp only [hr, h, and_zero_left]
  simp

theorem acceptV_masked (inp : Input) (j : Nat) (v v1 : View)
    (h0 : v.sock.revents &&& POLLIN = 0) (h : acceptV inp j v = .ok v1) : v1 = v := by
  unfold acceptV at h
  have hn : ¬ (v.sock.revents &&& POLLIN ≠ 0) := fun hne => hne h0
  rw [if_neg hn] at h
  injection h with h
  exact h.symm

/-! ## C9: a changed enable bit kills the channel -/

theorem dataV_closed (rx : Nat → Nat) (j : Nat) (d : List Desc) (u : View)
    (h0 : u.out_length = 0) (hw : u.wbit = false) :
    deliverV rx j (xferV j d (descV rx j u)) = xferV j d u := by
  have hc : ¬ (rx 1 &&& (1 <<< j) ≠ 0 ∧ u.out_length > 0) := by
    intro h
    rw [h0] at h
    exact absurd h.2 (Nat.lt_irrefl 0)
  have hd : descV rx j u = u := by simp only [descV, if_neg hc]
  have hx : ¬ ((xferV j d u).wbit = true ∧ rx (2 + j) > 0) := by
    intro h
    have : (xferV j d u).wbit = u.wbit := rfl
    rw [this, hw] at h
    cases h.1
  rw [hd]
  simp only [deliverV, if_neg hx]

theorem statusV_dead (rx : Nat → Nat) (j : Nat) (hj : j < 3) (v : View)
    (hf : v.conn.fd = -1) (he : v.sock.events = 0) :
    (statusV rx j v).conn.fd = -1 ∧ (statusV rx j v).sock.events = 0 := by
  by_cases hc : (rx 1 &&& (0x10 <<< j)) % 256 = v.status
  · rw [statusV_same rx j v hc]; exact ⟨hf, he⟩
  · rw [statusV_changed rx j hj v hc]; exact ⟨rfl, rfl⟩

theorem dead_cycle (s s1 : State) (inp : Input) (hp : PollModel s inp)
    (h : cycle s inp = .ok s1) (i : Nat) (hi : i < N_CHANNEL)
    (hf : (s.fds (CONN_POLL i)).fd = -1) (he : (s.fds (SOCK_POLL i)).events = 0) :
    (s1.fds (CONN_POLL i)).fd = -1 ∧ (s1.fds (SOCK_POLL i)).events = 0 := by
  obtain ⟨sA, hs, hc⟩ := view_cycle s s1 inp h i hi
  obtain ⟨v1, ha, hv⟩ := view_socketPhase s sA inp hs i hi
  obtain ⟨hcp, hsp⟩ := polled_of_model s inp hp i hi
  have hrev : (pollV inp i (view i s)).sock.revents &&& POLLIN = 0 := by
    by_contra hne
    have := hsp hne
    have e : (pollV inp i (view i s)).sock.events = 0 := he
    rw [e] at this
    exact this rfl
  have e1 := acceptV_masked inp i _ _ hrev ha
  have hcr : (pollV inp i (view i s)).conn.revents = 0 :=
    hcp.neg (by show (s.fds (CONN_POLL i)).fd < 0; rw [hf]; decide)
  have hA : view i sA = pollV inp i (view i s) := by
    rw [hv, e1, sockV_idle inp i _ hcr]
  have hAf : (view i sA).conn.fd = -1 := by rw [hA]; exact hf
  have hAe : (view i sA).sock.events = 0 := by rw [hA]; exact he
  rcases hc with ⟨_, h1⟩ | ⟨_, h1⟩
  · have e2 : (view i s1).conn.fd = -1 := by rw [h1]; exact hAf
    have e3 : (view i s1).sock.events = 0 := by rw [h1]; exact hAe
    exact ⟨e2, e3⟩
  · obtain ⟨d1, d2⟩ := statusV_dead (rx_buf inp) i hi _ hAf hAe
    obtain ⟨f1, f2, _⟩ := dataV_frame (rx_buf inp) i (dataDescs inp sA)
      (statusV (rx_buf inp) i (view i sA))
    have e2 : (view i s1).conn.fd = -1 := by rw [h1, f1]; exact d1
    have e3 : (view i s1).sock.events = 0 := by rw [h1, f2]; exact d2
    exact ⟨e2, e3⟩

/-- C9. (1) A cycle with a valid header reply in which the enable bit of
channel `i`, `rx[1] & (0x10 << i)`, differs from the stored
`channel_status[i]` (in either direction) ends with channel `i` holding no
connection, `out_length[i] = 0`, its `writable` and `channels_open` bits clear,
its listen socket disarmed, and the new status stored. (2) Under the poll
model the state "no connection and listen interest 0" is absorbing: it is kept
by every cycle, the accept condition of the channel is false in every such
cycle, and so it holds in every state the loop reaches from there. (3) In a
reachable state a channel whose stored status is non-zero holds no connection
and has its listen socket disarmed. -/
theorem changed_enable_bit_kills_channel (i : Nat) (hi : i < N_CHANNEL) :
    (∀ s s1 inp, cycle s inp = .ok s1 → rx_buf inp 0 = 0xCA →
      (rx_buf inp 1 &&& (0x10 <<< i)) % 256 ≠ s.channel_status i →
      (s1.fds (CONN_POLL i)).fd = -1 ∧ (s1.channels i).out_length = 0 ∧
      s1.writable.testBit i = false ∧ s1.channels_open.testBit i = false ∧
      (s1.fds (SOCK_POLL i)).events = 0 ∧
      s1.channel_status i = (rx_buf inp 1 &&& (0x10 <<< i)) % 256) ∧
    (∀ s s1, Steps s s1 →
      (s.fds (CONN_POLL i)).fd = -1 → (s.fds (SOCK_POLL i)).events = 0 →
      (s1.fds (CONN_POLL i)).fd = -1 ∧ (s1.fds (SOCK_POLL i)).events = 0 ∧
      ∀ inp, PollModel s1 inp → ((pollFds inp s1).fds (SOCK_POLL i)).revents &&& POLLIN = 0) ∧
    (∀ s, Reachable s → s.channel_status i ≠ 0 →
      (s.fds (CONN_POLL i)).fd = -1 ∧ (s.fds (SOCK_POLL i)).events = 0) := by
  refine ⟨?_, ?_, ?_⟩
  · intro s s1 inp h hv hne
    obtain ⟨sA, hs, hc⟩ := view_cycle s s1 inp h i hi
    rcases hc with ⟨hb, _⟩ | ⟨_, h1⟩
    · exact absurd hv hb
    · have hst : (rx_buf inp 1 &&& (0x10 <<< i)) % 256 ≠ (view i sA).status := by
        intro e
        apply hne
        rw [e]
        exact status_socketPhase s sA inp hs i hi
      rw [statusV_changed (rx_buf inp) i hi _ hst, dataV_closed _ _ _ _ rfl rfl] at h1
      have e1 : (view i s1).conn.fd = -1 := by rw [h1]; rfl
      have e2 : (view i s1).out_length = 0 := by rw [h1]; rfl
      have e3 : (view i s1).wbit = false := by rw [h1]; rfl
      have e4 : (view i s1).obit = false := by rw [h1]; rfl
      have e5 : (view i s1).sock.events = 0 := by rw [h1]; rfl
      have e6 : (view i s1).status = (rx_buf inp 1 &&& (0x10 <<< i)) % 256 := by rw [h1]; rfl
      exact ⟨e1, e2, e3, e4, e5, e6⟩
  · intro s s1 hst hf he
    have hdead : (s1.fds (CONN_POLL i)).fd = -1 ∧ (s1.fds (SOCK_POLL i)).events = 0 := by
      induction hst with
      | here => exact ⟨hf, he⟩
      | next inp _ hp hc ih => exact dead_cycle _ _ inp hp hc i hi ih.1 ih.2
    refine ⟨hdead.1, hdead.2, ?_⟩
    intro inp hp
    have hsp := (polled_of_model s1 inp hp i hi).2
    by_contra hne
    have h1 : (pollV inp i (view i s1)).sock.revents &&& POLLIN ≠ 0 := by
      rw [← view_pollFds inp s1 i hi]; exact hne
    have := hsp h1
    have e : (pollV inp i (view i s1)).sock.events = 0 := hdead.2
    rw [e] at this
    exact this rfl
  · intro s hr hne
    exact ((inv_reachable s hr).chan i hi).enabled hne

/-! ## C7: pending bytes block reads -/

theorem sockV_noread (inp : Input) (j : Nat) (v : View) (h : v.conn.revents &&& POLLIN = 0) :
    (sockV inp j v).out_buf = v.out_buf ∧
    ((sockV inp j v).conn.events &&& POLLIN ≠ 0 → v.conn.events &&& POLLIN ≠ 0) ∧
    ((sockV inp j v).out_length = v.out_length ∨ (sockV inp j v).out_length = 0) := by
  have hr : readV inp j v = (v, false) := by
    unfold readV
    have hn : ¬ (v.conn.revents &&& POLLIN ≠ 0) := fun hne => hne h
    rw [if_neg hn]
  unfold sockV
  rw [hr]
  dsimp only
  split_ifs <;>
    first
    | exact ⟨rfl, fun h => h, Or.inl rfl⟩
    | exact ⟨rfl, fun h => h, Or.inr rfl⟩
    | exact ⟨rfl, fun h => (in_clr_out _).mp h, Or.inl rfl⟩

theorem statusV_keep (rx : Nat → Nat) (j : Nat) (hj : j < 3) (v : View) :
    (statusV rx j v).out_buf = v.out_buf ∧ (statusV rx j v).conn.events = v.conn.events ∧
    ((statusV rx j v).out_length = v.out_length ∨ (statusV rx j v).out_length = 0) := by
  by_cases hc : (rx 1 &&& (0x10 <<< j)) % 256 = v.status
  · rw [statusV_same rx j v hc]; exact ⟨rfl, rfl, Or.inl rfl⟩
  · rw [statusV_changed rx j hj v hc]; exact ⟨rfl, rfl, Or.inr rfl⟩

theorem rearm_only_with_descriptor (inp : Input) (sA s1 : State) (i : Nat) (hi : i < N_CHANNEL)
    (h0 : (view i sA).conn.events &&& POLLIN = 0)
    (hcase : (rx_buf inp 0 ≠ 0xCA ∧ view i s1 = view i sA) ∨
      (rx_buf inp 0 = 0xCA ∧
        view i s1 = deliverV (rx_buf inp) i (xferV i (dataDescs inp sA)
          (descV (rx_buf inp) i (statusV (rx_buf inp) i (view i sA))))))
    (hin : (view i s1).conn.events &&& POLLIN ≠ 0) :
    rx_buf inp 0 = 0xCA ∧
      (⟨some i, none, (view i sA).out_length⟩ : Desc) ∈ dataDescs inp sA ∧
      (view i s1).out_length = 0 := by
  rcases hcase with ⟨_, h1⟩ | ⟨hv0, h1⟩
  · rw [h1] at hin
    exact absurd h0 hin
  · obtain ⟨_, k2, k3⟩ := statusV_keep (rx_buf inp) i hi (view i sA)
    have h0' : (statusV (rx_buf inp) i (view i sA)).conn.events &&& POLLIN = 0 := by
      rw [k2]; exact h0
    rw [h1] at hin
    obtain ⟨hcond, hzero⟩ := dataV_rearm (rx_buf inp) i _ _ h0' hin
    have hlen : (statusV (rx_buf inp) i (view i sA)).out_length = (view i sA).out_length := by
      rcases k3 with k | k
      · exact k
      · rw [k] at hcond
        exact absurd hcond.2 (Nat.lt_irrefl 0)
    refine ⟨hv0, ?_, ?_⟩
    · apply mem_dataDescs inp sA i hi
      apply List.mem_append_left
      rw [view_afterStatus inp sA i hi, ← hlen]
      simp only [txDesc, if_pos hcond, List.mem_singleton]
    · rw [h1]; exact hzero

/-- C7. For a reachable state `s` at a cycle boundary and a channel `i`:
(1) `out_length[i] > 0` implies that `i` holds a connection and `POLLIN` is not
in `CONN_POLL(i).events`; (2) under the poll model the next cycle then
performs no read on `i` and leaves `out_buf[i]` as it is; (3) in any cycle from
`s`, if bytes are pending where the header is built (`out_length[i] > 0`, read
in this cycle or earlier), `POLLIN` is not requested there, and it is requested
again at the end of the cycle only if the header reply was valid, the data
transfer got a tx-only descriptor of `out_length[i]` bytes for `i`, and
`out_length[i]` was zeroed. -/
theorem pending_bytes_block_reads (s : State) (hr : Reachable s) (i : Nat)
    (hi : i < N_CHANNEL) :
    (0 < (s.channels i).out_length →
      (s.fds (CONN_POLL i)).fd ≠ -1 ∧ (s.fds (CONN_POLL i)).events &&& POLLIN = 0) ∧
    (∀ inp s1, PollModel s inp → cycle s inp = .ok s1 → 0 < (s.channels i).out_length →
      ((pollFds inp s).fds (CONN_POLL i)).revents &&& POLLIN = 0 ∧
      (s1.channels i).out_buf = (s.channels i).out_buf) ∧
    (∀ inp sA s1, PollModel s inp → socketPhase s inp = .ok sA → cycle s inp = .ok s1 →
      0 < (sA.channels i).out_length →
      (sA.fds (CONN_POLL i)).fd ≠ -1 ∧ (sA.fds (CONN_POLL i)).events &&& POLLIN = 0 ∧
      ((s1.fds (CONN_POLL i)).events &&& POLLIN ≠ 0 →
        rx_buf inp 0 = 0xCA ∧
        (⟨some i, none, (sA.channels i).out_length⟩ : Desc) ∈ dataDescs inp sA ∧
        (s1.channels i).out_length = 0)) := by
  have hI := inv_reachable s hr
  have hV := hI.chan i hi
  refine ⟨fun hpos => hV.pending hpos, ?_, ?_⟩
  · intro inp s1 hp hc hpos
    have hpend := hV.pending hpos
    obtain ⟨hcp, hsp⟩ := polled_of_model s inp hp i hi
    have hcr : (pollV inp i (view i s)).conn.revents &&& POLLIN = 0 := by
      by_contra hne
      exact hcp.pin hne hpend.2
    have hsr : (pollV inp i (view i s)).sock.revents &&& POLLIN = 0 := by
      by_contra hne
      have hfree := accept_free (pollV inp i (view i s)) (vinv_pollV inp i _ hV) hsp hne
      exact hpend.1 hfree
    obtain ⟨sA, hs, hcase⟩ := view_cycle s s1 inp hc i hi
    obtain ⟨v1, ha, hv⟩ := view_socketPhase s sA inp hs i hi
    have e1 := acceptV_masked inp i _ _ hsr ha
    rw [e1] at hv
    obtain ⟨q1, _, _⟩ := sockV_noread inp i _ hcr
    have hAb : (view i sA).out_buf = (view i s).out_buf := by rw [hv, q1]; rfl
    refine ⟨?_, ?_⟩
    · rw [← view_pollFds inp s i hi] at hcr
      exact hcr
    · rcases hcase with ⟨_, h1⟩ | ⟨_, h1⟩
      · have : (view i s1).out_buf = (view i s).out_buf := by rw [h1, hAb]
        exact this
      · have : (view i s1).out_buf = (view i s).out_buf := by
          rw [h1, (dataV_frame _ _ _ _).2.2.1, (statusV_keep _ i hi _).1, hAb]
        exact this
  · intro inp sA s1 hp hs hc hpos
    have hIA := (inv_socketPhase s sA inp hI hp hs).1
    have hpend := (hIA.chan i hi).pending hpos
    obtain ⟨sA', hs', hcase⟩ := view_cycle s s1 inp hc i hi
    have e : sA' = sA := by
      rw [hs] at hs'
      injection hs' with hs'
      exact hs'.symm
    subst e
    exact ⟨hpend.1, hpend.2, fun hin => rearm_only_with_descriptor inp _ s1 i hi hpend.2 hcase hin⟩

/-! ## Witnesses for C7, C9 and C10 -/

theorem pendingAbc_reachable : Reachable pendingAbc :=
  Reachable.next (abcInput [0xCA, 0, 0, 0, 0]) connected_reachable (by decide)
    (cycle_after _ _ (by decide))

/-- Witness for C7: with `"abc"` pending on channel 0 the connection (handle 7)
is held and `POLLIN` is not requested on it; when the peer then replies
`CA 01 00 00 00` the cycle transmits the 3 bytes and requests `POLLIN` again. -/
theorem pending_bytes_witness :
    (pendingAbc.channels 0).out_length = 3 ∧
    ((pendingAbc.fds (CONN_POLL 0)).fd ≠ -1 ∧
      (pendingAbc.fds (CONN_POLL 0)).events &&& POLLIN = 0) ∧
    dataDescs (idleInput [0xCA, 1, 0, 0, 0])
      (headerState pendingAbc (idleInput [0xCA, 1, 0, 0, 0])) = [⟨some 0, none, 3⟩] ∧
    ((after pendingAbc (idleInput [0xCA, 1, 0, 0, 0])).fds (CONN_POLL 0)).events &&& POLLIN ≠ 0 ∧
    ((after pendingAbc (idleInput [0xCA, 1, 0, 0, 0])).channels 0).out_length = 0 :=
  ⟨by decide, (pending_bytes_block_reads pendingAbc pendingAbc_reachable 0 (by decide)).1
    (by decide), by decide, by decide, by decide⟩

/-- Witness for C9: channel 0 holds a connection with stored status 0; the
reply `CA 10 00 00 00` changes the enable bit and the cycle leaves the channel
closed with its listen socket disarmed. -/
theorem changed_enable_bit_witness :
    (connected.fds (CONN_POLL 0)).fd = 7 ∧
    (rx_buf (idleInput [0xCA, 0x10, 0, 0, 0]) 1 &&& (0x10 <<< 0)) % 256 ≠
      connected.channel_status 0 ∧
    (((after connected (idleInput [0xCA, 0x10, 0, 0, 0])).fds (CONN_POLL 0)).fd = -1 ∧
      ((after connected (idleInput [0xCA, 0x10, 0, 0, 0])).channels 0).out_length = 0 ∧
      (after connected (idleInput [0xCA, 0x10, 0, 0, 0])).writable.testBit 0 = false ∧
      (after connected (idleInput [0xCA, 0x10, 0, 0, 0])).channels_open.testBit 0 = false ∧
      ((after connected (idleInput [0xCA, 0x10, 0, 0, 0])).fds (SOCK_POLL 0)).events = 0 ∧
      (after connected (idleInput [0xCA, 0x10, 0, 0, 0])).channel_status 0 =
        (rx_buf (idleInput [0xCA, 0x10, 0, 0, 0]) 1 &&& (0x10 <<< 0)) % 256) :=
  ⟨by decide, by decide,
    (changed_enable_bit_kills_channel 0 (by decide)).1 connected _
      (idleInput [0xCA, 0x10, 0, 0, 0]) (cycle_after _ _ (by decide)) (by decide) (by decide)⟩

/-- Witness for C10: in the cycle in which the client of channel 0 wrote
`"abc"`, the flag bytes agree with the connection table where the header is
built (`channels_open = 1`, handle 7 held, `writable = 0`). -/
theorem flags_match_witness :
    PollModel connected (abcInput [0xCA, 1, 0, 0, 0]) ∧
    (headerState connected (abcInput [0xCA, 1, 0, 0, 0])).channels_open = 1 ∧
    ((headerState connected (abcInput [0xCA, 1, 0, 0, 0])).fds (CONN_POLL 0)).fd = 7 ∧
    FlagsOK (headerState connected (abcInput [0xCA, 1, 0, 0, 0])) :=
  ⟨by decide, by decide, by decide,
    (flags_match_connection_table connected _ (abcInput [0xCA, 1, 0, 0, 0]) connected_reachable
      (by decide) (socketPhase_headerState _ _ (by decide))).1⟩

end Spid
